import Mathlib

/-!
Verification of the DocSetQuery tools (docindex.py, docmeta.py, docset_sanitize.py).

Python strings are modelled as lists of characters (`Str := List Char`); a document
is a list of lines, each line without its trailing newline (the sources either read
via `splitlines()` or immediately `rstrip("\n")`, and no behaviour below depends on
the trailing newline).  Character classification (`str.isalnum`, `str.lower`,
whitespace) is modelled at ASCII level: Python's functions are Unicode-aware but
agree with this model on ASCII text.  Python code that can raise (attribute errors
from `data.setdefault(key, []).append(...)` when the stored value is not a list)
is modelled with `Except PErr`.
-/

set_option maxRecDepth 10000

namespace DocSet

abbrev Str := List Char

/-- Whitespace characters stripped by Python's default str.strip / str.lstrip. -/
def wsChars : Str := (" \t\n\r\x0b\x0c").data

def pyIsSpace (c : Char) : Bool := decide (c ∈ wsChars)

/-- ASCII alphanumeric table: model of Python str.isalnum on ASCII text. -/
def alnumChars : Str :=
  ("abcdefghijklmnopqrstuvwxyzABCDEFGHIJKLMNOPQRSTUVWXYZ0123456789").data

def pyIsAlnum (c : Char) : Bool := decide (c ∈ alnumChars)

/-- Uppercase/lowercase pairing: model of Python str.lower on ASCII text. -/
def lowerPairs : List (Char × Char) :=
  ("ABCDEFGHIJKLMNOPQRSTUVWXYZ").data.zip (("abcdefghijklmnopqrstuvwxyz").data)

def pyLower (c : Char) : Char := (lowerPairs.lookup c).getD c

def pyLowerStr (s : Str) : Str := s.map pyLower

/-- Python s.lstrip() (default whitespace). -/
def pyLstrip (s : Str) : Str := s.dropWhile pyIsSpace

/-- Drop characters satisfying p from the right end of the list. -/
def dropRightWhile (p : Char → Bool) : Str → Str
  | [] => []
  | c :: cs =>
    let r := dropRightWhile p cs
    if r = [] then (if p c then [] else [c]) else c :: r

/-- Python s.rstrip() (default whitespace). -/
def pyRstrip (s : Str) : Str := dropRightWhile pyIsSpace s

/-- Python s.strip() (default whitespace). -/
def pyStrip (s : Str) : Str := pyRstrip (pyLstrip s)

/-- Python s.startswith(pat). -/
def pyStartsWith : Str → Str → Bool
  | _, [] => true
  | [], _ :: _ => false
  | c :: cs, p :: ps => c = p && pyStartsWith cs ps

/-- Python membership test `":" in raw` (single character). -/
def hasColon (s : Str) : Bool := decide (':' ∈ s)

/-- Python raw.split(":", 1): text before the first colon and text after it. -/
def splitColon : Str → Str × Str
  | [] => ([], [])
  | c :: rest =>
    if c = ':' then ([], rest)
    else
      let p := splitColon rest
      (c :: p.1, p.2)

/-- Python substring test `sub in s`. -/
def pyContains (s sub : Str) : Bool :=
  match s with
  | [] => pyStartsWith [] sub
  | c :: rest => pyStartsWith (c :: rest) sub || pyContains rest sub

/-- Python int(s) on an already-stripped string: optional sign then decimal
digits (underscore/unicode digit forms are not modelled; no claim depends on
them). -/
def digitsToNat (ds : Str) : Nat := ds.foldl (fun a c => 10 * a + (c.toNat - 48)) 0

def pyIntCore (ds : Str) : Option Nat :=
  if ds ≠ [] ∧ ds.all Char.isDigit then some (digitsToNat ds) else none

def pyInt? (s : Str) : Option Int :=
  match s with
  | '+' :: rest => (pyIntCore rest).map Int.ofNat
  | '-' :: rest => (pyIntCore rest).map (fun n => -(n : Int))
  | _ => (pyIntCore s).map Int.ofNat

/-- Python ", ".join-style concatenation. -/
def joinSep (sep : Str) : List Str → Str
  | [] => []
  | [x] => x
  | x :: y :: rest => x ++ sep ++ joinSep sep (y :: rest)

/-- Insertion-ordered dictionary, modelling Python dict semantics used here. -/
abbrev Dict (α : Type) := List (Str × α)

def dGet {α : Type} (d : Dict α) (k : Str) : Option α :=
  match d with
  | [] => none
  | (k', v) :: rest => if k' = k then some v else dGet rest k

/-- Python d[k] = v: update in place when present, append when absent. -/
def dSet {α : Type} (d : Dict α) (k : Str) (v : α) : Dict α :=
  match d with
  | [] => [(k, v)]
  | (k', v') :: rest => if k' = k then (k, v) :: rest else (k', v') :: dSet rest k v

/-- Error raised by Python when .append is called on a non-list value, as in
data.setdefault(current_key, []).append(value) with a scalar stored value. -/
inductive PErr : Type
  | attrError
deriving DecidableEq

/-- Nested-mapping values produced by docmeta's stream parser: the inner dict
maps keys to either a string or a list of strings. -/
inductive NVal : Type
  | s (v : Str)
  | l (vs : List Str)
deriving DecidableEq

/-- Front-matter values of docindex/docmeta: scalar string, integer, list of
strings, or (docmeta only) a nested mapping. -/
inductive FMValue : Type
  | str (v : Str)
  | int (n : Int)
  | list (vs : List Str)
  | dict (m : Dict NVal)
deriving DecidableEq

/-- Python data.setdefault(k, []).append(v): appends when k is absent or holds a
list, raises AttributeError when k holds any other value. -/
def appendItem (d : Dict FMValue) (k : Str) (v : Str) : Except PErr (Dict FMValue) :=
  match dGet d k with
  | none => .ok (dSet d k (.list [v]))
  | some (.list xs) => .ok (dSet d k (.list (xs ++ [v])))
  | some _ => .error .attrError

/-- Nested variant: target.setdefault(k, []).append(v) where target is the inner
dict of docmeta's parser. -/
def appendNested (m : Dict NVal) (k : Str) (v : Str) : Except PErr (Dict NVal) :=
  match dGet m k with
  | none => .ok (dSet m k (.l [v]))
  | some (.l xs) => .ok (dSet m k (.l (xs ++ [v])))
  | some (.s _) => .error .attrError

/-- Python truthiness of an Optional[str] key register, as used in the guards
`and current_key` / `and key` / `and parent_key` / `and nested_current_key`:
None and the empty string are falsy. -/
def keyTruthy : Option Str → Bool
  | some (_ :: _) => true
  | _ => false

namespace Docindex

/-- docindex._slugify keep phase: keep lowercased alphanumerics, map each of
slash, dash and underscore to '-', drop everything else. -/
def keepPhase : Str → Str
  | [] => []
  | c :: rest =>
    if pyIsAlnum c then pyLower c :: keepPhase rest
    else if c = '/' ∨ c = '-' ∨ c = '_' then '-' :: keepPhase rest
    else keepPhase rest

/-- One pass of Python slug.replace("--", "-"): left-to-right, non-overlapping. -/
def replDD : Str → Str
  | [] => []
  | [c] => [c]
  | c :: d :: rest =>
    if c = '-' ∧ d = '-' then '-' :: replDD rest else c :: replDD (d :: rest)

/-- Python substring test "--" in slug. -/
def hasDD : Str → Bool
  | [] => false
  | [_] => false
  | c :: d :: rest => (c = '-' && d = '-') || hasDD (d :: rest)

theorem replDD_length_le : ∀ s : Str, (replDD s).length ≤ s.length := by
  intro s
  induction s using replDD.induct with
  | case1 => simp [replDD]
  | case2 c => simp [replDD]
  | case3 c d rest h ih =>
    obtain ⟨h1, h2⟩ := h
    subst h1; subst h2
    simp only [replDD, and_self, if_true, reduceIte, List.length_cons]
    omega
  | case4 c d rest h ih =>
    simp only [replDD, if_neg h, List.length_cons]
    simpa using ih

theorem replDD_length_lt : ∀ s : Str, hasDD s = true → (replDD s).length < s.length := by
  intro s
  induction s using replDD.induct with
  | case1 => simp [hasDD]
  | case2 c => simp [hasDD]
  | case3 c d rest h ih =>
    intro _
    obtain ⟨h1, h2⟩ := h
    subst h1; subst h2
    simp only [replDD, and_self, if_true, reduceIte, List.length_cons]
    have := replDD_length_le rest
    omega
  | case4 c d rest h ih =>
    intro hdd
    have hdd' : hasDD (d :: rest) = true := by
      simp only [hasDD, Bool.or_eq_true, Bool.and_eq_true, decide_eq_true_eq] at hdd
      rcases hdd with ⟨h1, h2⟩ | h2
      · exact absurd ⟨h1, h2⟩ h
      · exact h2
    simp only [replDD, if_neg h, List.length_cons]
    exact Nat.succ_lt_succ (ih hdd')

/-- Python while "--" in slug: slug = slug.replace("--", "-").  The loop is
expressed with an explicit fuel so that it is structurally recursive and
kernel-computable: each replacement pass strictly shortens a string that still
contains "--" (replDD_length_lt), so a fuel of s.length always reaches the
loop's exit condition (collapseFuel_noDD below). -/
def collapseFuel : Nat → Str → Str
  | 0, s => s
  | fuel + 1, s => if hasDD s = true then collapseFuel fuel (replDD s) else s

def collapse (s : Str) : Str := collapseFuel s.length s

/-- Python slug.strip("-"). -/
def stripDashes (s : Str) : Str :=
  dropRightWhile (fun c => c = '-') (s.dropWhile (fun c => c = '-'))

/-- docindex._slugify. -/
def slugify (text : Str) : Str :=
  let slug := collapse (keepPhase text)
  let r := stripDashes slug
  if r = [] then ("section").data else r

/-- One loop iteration of docindex._parse_front_matter for a non-delimiter line:
list-item continuation (guarded by `and current_key`, so only for a truthy
current key), colon-free skip, or a key: value assignment with empty-value,
"[]"/"null" and integer conversions.  Returns the updated data and current key,
or the AttributeError raised by appending to a scalar. -/
def lineStep (d : Dict FMValue) (ck : Option Str) (raw : Str) :
    Except PErr (Dict FMValue × Option Str) :=
  let colonPart : Except PErr (Dict FMValue × Option Str) :=
    if hasColon raw = false then .ok (d, ck)
    else
      let p := splitColon raw
      let key := pyStrip p.1
      let value := pyStrip p.2
      let conv : FMValue :=
        if value = [] then .list []
        else if value = ("[]").data ∨ value = ("null").data then .list []
        else
          match pyInt? value with
          | some n => .int n
          | none => .str value
      .ok (dSet d key conv, some key)
  match ck, pyStartsWith raw ("  - ").data && keyTruthy ck with
  | some k, true =>
    (appendItem d k (pyStrip (raw.drop 4))).map (fun d' => (d', some k))
  | _, _ => colonPart

/-- The while loop of docindex._parse_front_matter; idx counts consumed lines. -/
def goIdx (d : Dict FMValue) (ck : Option Str) (idx : Nat) :
    List Str → Except PErr (Dict FMValue × Nat)
  | [] => .ok (d, idx)
  | raw :: rest =>
    if pyStrip raw = ("---").data then .ok (d, idx + 1)
    else
      match lineStep d ck raw with
      | .error e => .error e
      | .ok (d', ck') => goIdx d' ck' (idx + 1) rest

/-- docindex._parse_front_matter. -/
def parse_front_matter (lines : List Str) :
    Except PErr (Option (Dict FMValue) × Nat) :=
  match lines with
  | [] => .ok (none, 0)
  | l0 :: rest =>
    if pyStrip l0 = ("---").data then
      (goIdx [] none 1 rest).map (fun p => (some p.1, p.2))
    else .ok (none, 0)

structure HeadingRecord where
  text : Str
  anchor : Str
  level : Nat
deriving DecidableEq

/-- re.match of the anchor pattern <a id="([^"]+)"></a> against a stripped
line: a prefix match, with a non-empty run of non-quote characters as the id. -/
def anchorMatch (s : Str) : Option Str :=
  if pyStartsWith s ("<a id=\"").data then
    let t := s.drop 7
    let x := t.takeWhile (fun c => c ≠ '"')
    if x = [] then none
    else if pyStartsWith (t.drop x.length) ("\"></a>").data then some x
    else none
  else none

/-- The loop body of docindex._collect_headings, carrying the pending anchor. -/
def collectAux (pending : Option Str) : List Str → List HeadingRecord
  | [] => []
  | raw :: rest =>
    match anchorMatch (pyStrip raw) with
    | some x => collectAux (some x) rest
    | none =>
      let content := pyLstrip raw
      if pyStartsWith content ("#").data = false then collectAux pending rest
      else
        let level := content.length - (content.dropWhile (fun c => c = '#')).length
        let text := pyStrip (content.drop level)
        if text = [] then collectAux pending rest
        else
          -- Python: anchor = pending_anchor or _slugify(text); a matched anchor
          -- id is never the empty string, so getD coincides with Python's `or`.
          ⟨text, pending.getD (slugify text), min level 6⟩ :: collectAux none rest

/-- docindex._collect_headings (the list-input case; the iterable case caches
into a list and proceeds identically). -/
def collect_headings (lines : List Str) (start_index : Nat) : List HeadingRecord :=
  collectAux none (lines.drop start_index)

/-- One index entry as assembled by docindex.build_index.  File-system details
(relative-path computation) are not modelled: path is the document's stem. -/
structure DocEntry where
  path : Str
  title : FMValue
  docset_version : FMValue
  exported_at : FMValue
  doc_count : FMValue
  file_size : FMValue
  key_sections : FMValue
  headings : List HeadingRecord
deriving DecidableEq

/-- Entry assembly of docindex.build_index: front_matter.get(key, default). -/
def mkEntry (stem : Str) (lines : List Str) (fm : Dict FMValue) (offset : Nat) :
    DocEntry where
  path := stem
  title := (dGet fm ("title").data).getD (.str stem)
  docset_version := (dGet fm ("docset_version").data).getD (.str ("unknown").data)
  exported_at := (dGet fm ("exported_at").data).getD (.str [])
  doc_count := (dGet fm ("doc_count").data).getD (.int 0)
  file_size := (dGet fm ("file_size").data).getD (.int 0)
  key_sections := (dGet fm ("key_sections").data).getD (.list [])
  headings := collect_headings lines offset

/-- The per-document loop of docindex.build_index over (stem, lines) documents
enumerated in sorted order; a document whose front matter is falsy (absent or
empty) is skipped.  The JSON write and timestamp are I/O, not modelled. -/
def build_entries : List (Str × List Str) → Except PErr (List DocEntry)
  | [] => .ok []
  | (stem, lines) :: rest => do
    let p ← parse_front_matter lines
    match p.1 with
    | none => build_entries rest
    | some fm =>
      if fm = [] then build_entries rest
      else do
        let es ← build_entries rest
        .ok (mkEntry stem lines fm p.2 :: es)

/-- Python str() rendering used by f-strings for front-matter values; str() of a
list is its repr (single-quote form; quote-switching for embedded quotes is not
modelled, no claim depends on it).  str() of a dict is likewise not modelled. -/
def pyReprStr (s : Str) : Str := '\'' :: s ++ ['\'']

def pyReprList (xs : List Str) : Str :=
  '[' :: joinSep ((", ").data) (xs.map pyReprStr) ++ [']']

def fmtVal : FMValue → Str
  | .str s => s
  | .int n => (toString n).data
  | .list xs => pyReprList xs
  | .dict _ => []

/-- Iterating a front-matter value as Python's for-loop does: lists yield their
items, strings yield their characters as 1-character strings; other values are
not iterated by any claim (Python would raise for int). -/
def iterVal : FMValue → List Str
  | .list xs => xs
  | .str s => s.map (fun c => [c])
  | _ => []

/-- The heading loop of docindex.search_entries: results and seen keys. -/
def searchHeadings (tl path titleS : Str) :
    List HeadingRecord → List Str → List Str → List Str × List Str
  | [], results, seen => (results, seen)
  | h :: hs, results, seen =>
    if pyContains (pyLowerStr h.text) tl then
      let key := path ++ '#' :: h.anchor
      if key ∈ seen then searchHeadings tl path titleS hs results seen
      else
        searchHeadings tl path titleS hs
          (results ++ [titleS ++ (": ").data ++ h.text ++ (" — ").data ++ key])
          (seen ++ [key])
    else searchHeadings tl path titleS hs results seen

/-- The key-section loop of docindex.search_entries. -/
def searchSections (tl path titleS : Str) :
    List Str → List Str → List Str → List Str × List Str
  | [], results, seen => (results, seen)
  | s :: ss, results, seen =>
    if pyContains (pyLowerStr s) tl then
      let slug := slugify s
      let key := path ++ '#' :: slug
      if key ∈ seen then searchSections tl path titleS ss results seen
      else
        searchSections tl path titleS ss
          (results ++ [titleS ++ (": ").data ++ s ++ (" — ").data ++ key])
          (seen ++ [key])
    else searchSections tl path titleS ss results seen

/-- docindex.search_entries over the entries of a built index; the seen set
persists across entries as in the source. -/
def searchGo (tl : Str) : List DocEntry → List Str → List Str → List Str
  | [], results, _ => results
  | e :: es, results, seen =>
    let titleS := fmtVal e.title
    let p1 := searchHeadings tl e.path titleS e.headings results seen
    let p2 := searchSections tl e.path titleS (iterVal e.key_sections) p1.1 p1.2
    searchGo tl es p2.1 p2.2

def search_entries (entries : List DocEntry) (term : Str) : List Str :=
  searchGo (pyLowerStr term) entries [] []

end Docindex

namespace Docmeta

/-- Parser state of docmeta._parse_front_matter_stream: accumulated data, raw
header lines, and the parent / nested / current key registers. -/
structure MState where
  d : Dict FMValue
  raws : List Str
  parent : Option Str
  nested : Option Str
  current : Option Str

/-- The flat part of the loop body (reached when no nested branch consumed the
line): resets the nested key, then list-item continuation, colon-free skip, or
key: value assignment that also updates the parent key at zero indent. -/
def metaFlat (st : MState) (d : Dict FMValue) (raw stripped : Str) (indent : Nat) :
    Except PErr MState :=
  let colonPart : Except PErr MState :=
    if hasColon raw = false then .ok { st with d := d, nested := none }
    else
      let p := splitColon raw
      let key := pyStrip p.1
      let value := pyStrip p.2
      let v : FMValue :=
        if value = [] then .list []
        else
          match pyInt? value with
          | some n => .int n
          | none => .str value
      .ok { st with
        d := dSet d key v
        nested := none
        current := some key
        parent := if indent = 0 then some key else st.parent }
  match st.current, pyStartsWith stripped ("- ").data && keyTruthy st.current with
  | some k, true =>
    (appendItem d k (pyStrip (stripped.drop 2))).map
      (fun d' => { st with d := d', nested := none })
  | _, _ =>
    -- The source's "  - " branch: dead code, since stripped never starts with
    -- a space; kept for structural fidelity.
    match st.current, pyStartsWith stripped ("  - ").data && keyTruthy st.current with
    | some k, true =>
      (appendItem d k (pyStrip (stripped.drop 4))).map
        (fun d' => { st with d := d', nested := none })
    | _, _ => colonPart

/-- The indented branch of the loop body, with parent key pk active: possible
list-to-dict conversion, list append, nested dict item or nested key: value;
otherwise falls through to the flat part (with the conversion persisted). -/
def metaNested (st : MState) (raw stripped : Str) (indent : Nat) (pk : Str) :
    Except PErr MState :=
  let t0 := dGet st.d pk
  let conv : Option FMValue × Dict FMValue :=
    match t0 with
    | some (.list _) =>
      if pyStartsWith stripped ("- ").data = false then
        (some (.dict []), dSet st.d pk (.dict []))
      else (t0, st.d)
    | _ => (t0, st.d)
  let t := conv.1
  let d := conv.2
  match t with
  | some (.list xs) =>
    if pyStartsWith stripped ("- ").data then
      .ok { st with d := dSet d pk (.list (xs ++ [pyStrip (stripped.drop 2)])) }
    else metaFlat st d raw stripped indent
  | some (.dict m) =>
    if pyStartsWith stripped ("- ").data then
      -- `if nested_current_key:` --- None and the empty string both skip.
      match st.nested, keyTruthy st.nested with
      | some nk, true =>
        (appendNested m nk (pyStrip (stripped.drop 2))).map
          (fun m' => { st with d := dSet d pk (.dict m') })
      | _, _ => .ok { st with d := d }
    else if hasColon stripped then
      let p := splitColon stripped
      let nk := pyStrip p.1
      let value := pyStrip p.2
      let nv : NVal := if value = [] then .l [] else .s value
      .ok { st with d := dSet d pk (.dict (dSet m nk nv)), nested := some nk }
    else metaFlat st d raw stripped indent
  | _ => metaFlat st d raw stripped indent

/-- The for-loop of docmeta._parse_front_matter_stream.  Returns (data,
raw_lines, carry, remaining-stream). -/
def goStream (st : MState) :
    List Str → Except PErr (Dict FMValue × List Str × List Str × List Str)
  | [] => .ok (st.d, st.raws, [], [])
  | raw :: rest =>
    if pyStrip raw = ("---").data then .ok (st.d, st.raws, [], rest)
    else
      let st1 := { st with raws := st.raws ++ [raw] }
      let stripped := pyStrip raw
      let indent := raw.length - (raw.dropWhile (fun c => c = ' ')).length
      let stepRes : Except PErr MState :=
        -- `if indent > 0 and parent_key:` --- an empty-string parent key is
        -- falsy, so such lines take the flat path.
        match st1.parent, decide (0 < indent) && keyTruthy st1.parent with
        | some pk, true => metaNested st1 raw stripped indent pk
        | _, _ => metaFlat st1 st1.d raw stripped indent
      match stepRes with
      | .error e => .error e
      | .ok st' => goStream st' rest

/-- docmeta._parse_front_matter_stream.  The extra fourth component is the
unconsumed remainder of the stream, which the caller reads next. -/
def parse_front_matter_stream (lines : List Str) :
    Except PErr (Dict FMValue × List Str × List Str × List Str) :=
  match lines with
  | [] => .ok ([], [], [], [])
  | first :: rest =>
    if pyStrip first = ("---").data then goStream ⟨[], [], none, none, none⟩ rest
    else .ok ([], [], [first], rest)

/-- The loop of docmeta._read_toc_block; max_lines is an int and is falsy at 0. -/
def goToc (toc : List Str) (started : Bool) (scanned : Nat) (maxL : Int) :
    List Str → List Str × Bool
  | [] => (toc, false)
  | raw :: rest =>
    let n := scanned + 1
    if maxL ≠ 0 ∧ (n : Int) > maxL then (toc, true)
    else
      let stripped := pyStrip raw
      if started = false then
        if stripped = ("## Table of Contents").data then
          goToc (toc ++ [stripped]) true n maxL rest
        else goToc toc false n maxL rest
      else if pyStartsWith stripped ("## ").data ∧
          stripped ≠ ("## Table of Contents").data then (toc, false)
      else if stripped = [] then goToc toc started n maxL rest
      else goToc (toc ++ [raw]) started n maxL rest

/-- docmeta._read_toc_block over chain(carry, fh). -/
def read_toc_block (lines : List Str) (maxL : Int) : List Str × Bool :=
  goToc [] false 0 maxL lines

structure PeekResult where
  has_front_matter : Bool
  front_matter : Dict FMValue
  front_matter_raw : List Str
  toc_found : Bool
  toc_truncated : Bool
  toc : Option (List Str)

/-- docmeta.peek_markdown on the document's lines (file opening not modelled). -/
def peek_markdown (lines : List Str) (include_toc : Bool) (max_lines : Int) :
    Except PErr PeekResult := do
  let r ← parse_front_matter_stream lines
  let fm := r.1
  let raws := r.2.1
  let carry := r.2.2.1
  let rem := r.2.2.2
  let tp := if include_toc then read_toc_block (carry ++ rem) max_lines else ([], false)
  .ok ⟨fm ≠ [], fm, raws, tp.1 ≠ [], tp.2, if include_toc then some tp.1 else none⟩

end Docmeta

namespace Sanitize

/-- Front-matter values of docset_sanitize.parse_front_matter: always a string
or a list of strings (no integer conversion in this variant). -/
inductive SVal : Type
  | str (s : Str)
  | list (xs : List Str)
deriving DecidableEq

/-- Python data.setdefault(key, []).append(v) for the sanitizer's value type. -/
def appendItemS (d : Dict SVal) (k : Str) (v : Str) : Except PErr (Dict SVal) :=
  match dGet d k with
  | none => .ok (dSet d k (.list [v]))
  | some (.list xs) => .ok (dSet d k (.list (xs ++ [v])))
  | some (.str _) => .error .attrError

/-- The closing-delimiter scan of docset_sanitize.parse_front_matter over
lines[1:]: header lines before the first "---" line, and the rest after it;
when no delimiter is found the whole input is the header and the rest is []. -/
def fmSplit : List Str → List Str × List Str
  | [] => ([], [])
  | l :: rest =>
    if pyStrip l = ("---").data then ([], rest)
    else
      let p := fmSplit rest
      (l :: p.1, p.2)

/-- The accumulation loop of docset_sanitize.parse_front_matter. -/
def foldFM (d : Dict SVal) (k : Option Str) :
    List Str → Except PErr (Dict SVal × Option Str)
  | [] => .ok (d, k)
  | raw :: rest =>
    let stripped := pyStrip raw
    match k, pyStartsWith stripped ("- ").data && keyTruthy k with
    | some key, true =>
      match appendItemS d key (stripped.drop 2) with
      | .error e => .error e
      | .ok d' => foldFM d' (some key) rest
    | _, _ =>
      -- The source's "  - " branch: dead code (stripped never starts with a
      -- space), kept for structural fidelity.
      match k, pyStartsWith stripped ("  - ").data && keyTruthy k with
      | some key, true =>
        match appendItemS d key (stripped.drop 2) with
        | .error e => .error e
        | .ok d' => foldFM d' (some key) rest
      | _, _ =>
        if hasColon raw then
          let p := splitColon raw
          let key := pyStrip p.1
          let value := pyStrip p.2
          foldFM (dSet d key (if value = [] then .list [] else .str value))
            (some key) rest
        else foldFM d k rest

/-- docset_sanitize.parse_front_matter: returns the mapping and the lines after
the header block (the whole input when there is no opening delimiter). -/
def parse_front_matter (lines : List Str) : Except PErr (Dict SVal × List Str) :=
  match lines with
  | [] => .ok ([], [])
  | l0 :: rest =>
    if pyStrip l0 = ("---").data then
      let p := fmSplit rest
      match foldFM [] none p.1 with
      | .error e => .error e
      | .ok (d, _) => .ok (d, p.2)
    else .ok ([], lines)

/-- Python str() of the emitted value in build_front_matter's f-string. -/
def fmtS : SVal → Str
  | .str s => s
  | .list xs => Docindex.pyReprList xs

/-- The emit helper of docset_sanitize.build_front_matter: skips a missing
value and the empty string (a list, even empty, is rendered). -/
def emit (key : Str) (v : Option SVal) : List Str :=
  match v with
  | none => []
  | some (.str s) => if s = [] then [] else [key ++ (": ").data ++ s]
  | some v => [key ++ (": ").data ++ fmtS v]

/-- Lexicographic comparison on code points, modelling Python sorted() on str. -/
def strLe : Str → Str → Bool
  | [], _ => true
  | _ :: _, [] => false
  | a :: as, b :: bs => if a = b then strLe as bs else decide (a < b)

/-- Stable insertion sort with strLe: the model of Python sorted(stopwords). -/
def insertSorted (w : Str) : List Str → List Str
  | [] => [w]
  | x :: xs => if strLe w x then w :: x :: xs else x :: insertSorted w xs

def sortStr : List Str → List Str
  | [] => []
  | w :: ws => insertSorted w (sortStr ws)

/-- docset_sanitize.build_front_matter; now stands for the generated_at
timestamp (datetime.now is I/O). -/
def build_front_matter (meta : Dict SVal) (key_sections : List Str)
    (toc_depth : Int) (stopwords : List Str) (now : Str) : List Str :=
  let summary := joinSep ((", ").data) (key_sections.take 6)
  [("---").data]
    ++ emit (("title").data) (dGet meta (("title").data))
    ++ emit (("docset_version").data) (dGet meta (("docset_version").data))
    ++ emit (("exported_at").data) (dGet meta (("exported_at").data))
    ++ emit (("doc_count").data) (dGet meta (("doc_count").data))
    ++ emit (("file_size").data) (dGet meta (("file_size").data))
    ++ (if summary ≠ [] then emit (("summary").data) (some (.str summary)) else [])
    ++ [("key_sections:").data]
    ++ (key_sections.take 20).map (fun s => ("  - ").data ++ s)
    ++ [("sanitizer:").data]
    ++ [("  generated_at: ").data ++ now]
    ++ [("  toc_depth: ").data ++ (toString toc_depth).data]
    ++ [("  stopwords:").data]
    ++ (sortStr stopwords).map (fun w => ("    - ").data ++ w)
    ++ [("---").data]

def STOPWORDS_DEFAULT : List Str :=
  [("return value").data, ("discussion").data, ("special considerations").data,
   ("parameters").data, ("see also").data]

/-- The stopword set built by docset_sanitize.main: lowercased defaults plus
lowercased user additions (set modelled as a list used via membership). -/
def mkStopwords (user : List Str) : List Str :=
  STOPWORDS_DEFAULT.map pyLowerStr ++ user.map pyLowerStr

/-- The key-section filtering loop of docset_sanitize.sanitize_file: drop
stopwords and "overview" case-insensitively, deduplicate, keep order. -/
def cleanedGo (stopwords acc : List Str) : List Str → List Str
  | [] => acc
  | t :: ts =>
    let lower := pyLowerStr t
    if lower ∈ stopwords ∨ lower = ("overview").data then cleanedGo stopwords acc ts
    else if t ∈ acc then cleanedGo stopwords acc ts
    else cleanedGo stopwords (acc ++ [t]) ts

/-- The lazy group of re.match(r"- \[(.+?)\]", stripped): shortest non-empty
run after "- [" that is followed by ']'. -/
def tocLinkTitle? (line : Str) : Option Str :=
  let stripped := pyStrip line
  if pyStartsWith stripped ("- [").data then
    match stripped.drop 3 with
    | [] => none
    | c :: cs =>
      let t := c :: cs.takeWhile (fun x => x ≠ ']')
      if ((c :: cs).drop t.length).head? = some ']' then some t else none
  else none

/-- The fallback derivation loop of docset_sanitize.sanitize_file: scan TOC
link lines, apply the same stopword / overview / dedup rules, stop at 10. -/
def derivedGo (stopwords acc : List Str) : List Str → List Str
  | [] => acc
  | line :: ls =>
    match tocLinkTitle? line with
    | none => derivedGo stopwords acc ls
    | some title =>
      let lower := pyLowerStr title
      if lower ∈ stopwords ∨ lower = ("overview").data then derivedGo stopwords acc ls
      else if title ∈ acc then derivedGo stopwords acc ls
      else
        let acc' := acc ++ [title]
        if 10 ≤ acc'.length then acc' else derivedGo stopwords acc' ls

/-- The key_sections value that sanitize_file passes to build_front_matter:
the cleaned sections, or when none survive, the derived replacements. -/
def outputKeySections (ks rest : List Str) (stopwords : List Str) : List Str :=
  let c := cleanedGo stopwords [] ks
  if c = [] then derivedGo stopwords [] rest else c

end Sanitize

end DocSet

namespace DocSet

namespace Docindex

/-! Lemmas about the slugify pipeline, leading to idempotence (claim C6). -/

/-- Characters that slugify's keep phase leaves fixed: lower-case
alphanumerics and the dash. -/
def goodChar (c : Char) : Prop := (pyIsAlnum c = true ∧ pyLower c = c) ∨ c = '-'

theorem alnum_table :
    (alnumChars.all fun c => pyIsAlnum (pyLower c) && (pyLower (pyLower c) == pyLower c)) = true := by
  decide

theorem lower_good {c : Char} (h : pyIsAlnum c = true) :
    pyIsAlnum (pyLower c) = true ∧ pyLower (pyLower c) = pyLower c := by
  have hm : c ∈ alnumChars := by
    have := h
    unfold pyIsAlnum at this
    exact of_decide_eq_true this
  have := List.all_eq_true.mp alnum_table c hm
  simp only [Bool.and_eq_true, beq_iff_eq] at this
  exact this

theorem keepPhase_good : ∀ (s : Str), ∀ c ∈ keepPhase s, goodChar c := by
  intro s
  induction s with
  | nil => intro c hc; simp [keepPhase] at hc
  | cons a rest ih =>
    intro c hc
    unfold keepPhase at hc
    by_cases ha : pyIsAlnum a = true
    · rw [if_pos ha] at hc
      rcases List.mem_cons.mp hc with h | h
      · subst h
        exact Or.inl (lower_good ha)
      · exact ih c h
    · rw [if_neg (by simp [ha])] at hc
      by_cases hb : a = '/' ∨ a = '-' ∨ a = '_'
      · rw [if_pos hb] at hc
        rcases List.mem_cons.mp hc with h | h
        · subst h; exact Or.inr rfl
        · exact ih c h
      · rw [if_neg hb] at hc
        exact ih c hc

theorem keepPhase_fixed : ∀ (s : Str), (∀ c ∈ s, goodChar c) → keepPhase s = s := by
  intro s
  induction s with
  | nil => intro _; rfl
  | cons a rest ih =>
    intro h
    have ha := h a (List.mem_cons_self a rest)
    have hrest := ih (fun c hc => h c (List.mem_cons_of_mem a hc))
    rcases ha with ⟨h1, h2⟩ | h1
    · unfold keepPhase
      rw [if_pos h1, h2, hrest]
    · subst h1
      unfold keepPhase
      rw [if_neg (by decide), if_pos (by simp), hrest]

theorem replDD_subset : ∀ (s : Str), ∀ c ∈ replDD s, c ∈ s := by
  intro s
  induction s using replDD.induct with
  | case1 => intro c hc; simp [replDD] at hc
  | case2 a => intro c hc; simpa [replDD] using hc
  | case3 a b rest h ih =>
    obtain ⟨h1, h2⟩ := h; subst h1; subst h2
    intro c hc
    simp only [replDD, and_self, if_true, reduceIte] at hc
    rcases List.mem_cons.mp hc with h | h
    · subst h; exact List.mem_cons_self _ _
    · exact List.mem_cons_of_mem _ (List.mem_cons_of_mem _ (ih c h))
  | case4 a b rest h ih =>
    intro c hc
    simp only [replDD, if_neg h] at hc
    rcases List.mem_cons.mp hc with hh | hh
    · subst hh; exact List.mem_cons_self _ _
    · exact List.mem_cons_of_mem _ (ih c hh)

theorem collapseFuel_subset : ∀ (n : Nat) (s : Str), ∀ c ∈ collapseFuel n s, c ∈ s := by
  intro n
  induction n with
  | zero => intro s c hc; exact hc
  | succ m ih =>
    intro s c hc
    unfold collapseFuel at hc
    by_cases h : hasDD s = true
    · rw [if_pos h] at hc
      exact replDD_subset s c (ih (replDD s) c hc)
    · rwa [if_neg h] at hc

theorem collapse_subset : ∀ (s : Str), ∀ c ∈ collapse s, c ∈ s := by
  intro s
  exact collapseFuel_subset s.length s

theorem collapseFuel_noDD :
    ∀ (n : Nat) (s : Str), s.length ≤ n → hasDD (collapseFuel n s) = false := by
  intro n
  induction n with
  | zero =>
    intro s hs
    interval_cases h : s.length
    · cases s with
      | nil => rfl
      | cons a rest => simp at h
  | succ m ih =>
    intro s hs
    unfold collapseFuel
    by_cases h : hasDD s = true
    · rw [if_pos h]
      exact ih (replDD s) (by have := replDD_length_lt s h; omega)
    · rw [if_neg h]
      simpa using h

theorem collapse_noDD : ∀ (s : Str), hasDD (collapse s) = false := by
  intro s
  exact collapseFuel_noDD s.length s le_rfl

theorem collapse_of_noDD {s : Str} (h : hasDD s = false) : collapse s = s := by
  unfold collapse
  cases hl : s.length with
  | zero => rfl
  | succ n =>
    unfold collapseFuel
    rw [if_neg (by simp [h])]

theorem dropRightWhile_subset {p : Char → Bool} :
    ∀ (s : Str), ∀ c ∈ dropRightWhile p s, c ∈ s := by
  intro s
  induction s with
  | nil => intro c hc; simp [dropRightWhile] at hc
  | cons a rest ih =>
    intro c hc
    unfold dropRightWhile at hc
    by_cases hr : dropRightWhile p rest = []
    · rw [if_pos hr] at hc
      by_cases hp : p a = true
      · rw [if_pos hp] at hc; simp at hc
      · rw [if_neg hp] at hc
        simp only [List.mem_singleton] at hc
        subst hc; exact List.mem_cons_self _ _
    · rw [if_neg hr] at hc
      rcases List.mem_cons.mp hc with h | h
      · subst h; exact List.mem_cons_self _ _
      · exact List.mem_cons_of_mem _ (ih c h)

/-- dropRightWhile yields a prefix of its input. -/
theorem dropRightWhile_isPrefix {p : Char → Bool} :
    ∀ (s : Str), ∃ u, s = dropRightWhile p s ++ u := by
  intro s
  induction s with
  | nil => exact ⟨[], rfl⟩
  | cons a rest ih =>
    obtain ⟨u, hu⟩ := ih
    unfold dropRightWhile
    by_cases hr : dropRightWhile p rest = []
    · by_cases hp : p a = true
      · rw [if_pos hr, if_pos hp]
        exact ⟨a :: rest, rfl⟩
      · rw [if_pos hr, if_neg hp]
        rw [hr] at hu
        exact ⟨rest, by simp⟩
    · rw [if_neg hr]
      exact ⟨u, by rw [List.cons_append, ← hu]⟩

theorem hasDD_append_left : ∀ (a u : Str), hasDD (a ++ u) = false → hasDD a = false := by
  intro a
  induction a using hasDD.induct with
  | case1 => intro u _; rfl
  | case2 x => intro u _; rfl
  | case3 x y rest ih =>
    intro u h
    simp only [List.cons_append] at h
    unfold hasDD at h ⊢
    simp only [Bool.or_eq_false_iff] at h ⊢
    refine ⟨h.1, ?_⟩
    exact ih u (by simpa using h.2)

theorem hasDD_append_right : ∀ (u b : Str), hasDD (u ++ b) = false → hasDD b = false := by
  intro u
  induction u with
  | nil => intro b h; simpa using h
  | cons x u' ih =>
    intro b h
    apply ih
    simp only [List.cons_append] at h
    cases hu : u' ++ b with
    | nil => rfl
    | cons y ys =>
      rw [hu] at h
      unfold hasDD at h
      simp only [Bool.or_eq_false_iff] at h
      exact h.2

/-- Every suffix produced by dropWhile: the input splits around it. -/
theorem dropWhile_isSuffix {p : Char → Bool} :
    ∀ (s : Str), ∃ u, s = u ++ s.dropWhile p := by
  intro s
  induction s with
  | nil => exact ⟨[], rfl⟩
  | cons a rest ih =>
    by_cases hp : p a = true
    · obtain ⟨u, hu⟩ := ih
      rw [List.dropWhile_cons, if_pos hp]
      exact ⟨a :: u, by rw [List.cons_append, ← hu]⟩
    · rw [List.dropWhile_cons, if_neg hp]
      exact ⟨[], rfl⟩

theorem head_dropWhile_false {p : Char → Bool} :
    ∀ (s : Str) (c : Char), (s.dropWhile p).head? = some c → p c = false := by
  intro s
  induction s with
  | nil => intro c hc; simp at hc
  | cons a rest ih =>
    intro c hc
    rw [List.dropWhile_cons] at hc
    by_cases hp : p a = true
    · rw [if_pos hp] at hc
      exact ih c hc
    · rw [if_neg hp] at hc
      simp only [List.head?_cons, Option.some.injEq] at hc
      subst hc
      exact Bool.not_eq_true _ ▸ (by simpa using hp)

theorem head_dropRightWhile {p : Char → Bool} :
    ∀ (s : Str), dropRightWhile p s = [] ∨ (dropRightWhile p s).head? = s.head? := by
  intro s
  induction s with
  | nil => exact Or.inl rfl
  | cons a rest _ =>
    unfold dropRightWhile
    by_cases hr : dropRightWhile p rest = []
    · by_cases hp : p a = true
      · rw [if_pos hr, if_pos hp]; exact Or.inl rfl
      · rw [if_pos hr, if_neg hp]; exact Or.inr rfl
    · rw [if_neg hr]; exact Or.inr rfl

theorem dropWhile_of_head {p : Char → Bool} (s : Str)
    (h : ∀ c, s.head? = some c → p c = false) : s.dropWhile p = s := by
  cases s with
  | nil => rfl
  | cons a rest =>
    rw [List.dropWhile_cons, if_neg (by simp [h a rfl])]

theorem dropRightWhile_idem {p : Char → Bool} :
    ∀ (s : Str), dropRightWhile p (dropRightWhile p s) = dropRightWhile p s := by
  intro s
  induction s with
  | nil => rfl
  | cons a rest ih =>
    by_cases hr : dropRightWhile p rest = []
    · by_cases hp : p a = true
      · simp [dropRightWhile, hr, hp]
      · simp [dropRightWhile, hr, hp]
    · simp [dropRightWhile, hr, ih]

/-- stripDashes is idempotent. -/
theorem stripDashes_idem : ∀ (s : Str), stripDashes (stripDashes s) = stripDashes s := by
  intro s
  unfold stripDashes
  have hdW : (dropRightWhile (fun c => c = '-') (s.dropWhile (fun c => c = '-'))).dropWhile
      (fun c => c = '-') =
      dropRightWhile (fun c => c = '-') (s.dropWhile (fun c => c = '-')) := by
    apply dropWhile_of_head
    intro c hc
    rcases head_dropRightWhile (p := fun c => c = '-') (s.dropWhile (fun c => c = '-')) with
      hnil | hhead
    · rw [hnil] at hc; simp at hc
    · rw [hhead] at hc
      exact head_dropWhile_false s c hc
  rw [hdW, dropRightWhile_idem]

/-- The slugify output has no double dash. -/
theorem slug_core_noDD (s : Str) :
    hasDD (stripDashes (collapse (keepPhase s))) = false := by
  set z := collapse (keepPhase s) with hz
  have h1 : hasDD z = false := collapse_noDD _
  obtain ⟨u, hu⟩ := dropWhile_isSuffix (p := fun c => c = '-') z
  have h2 : hasDD (z.dropWhile (fun c => c = '-')) = false := by
    apply hasDD_append_right u
    rw [← hu]; exact h1
  obtain ⟨v, hv⟩ := dropRightWhile_isPrefix (p := fun c => c = '-')
      (z.dropWhile (fun c => c = '-'))
  have h3 := hasDD_append_left _ v (by rw [← hv]; exact h2)
  exact h3

theorem slug_core_good (s : Str) :
    ∀ c ∈ stripDashes (collapse (keepPhase s)), goodChar c := by
  intro c hc
  unfold stripDashes at hc
  have h1 := dropRightWhile_subset _ c hc
  have h2 : c ∈ collapse (keepPhase s) := by
    obtain ⟨u, hu⟩ := dropWhile_isSuffix (p := fun c => c = '-') (collapse (keepPhase s))
    rw [hu]
    exact List.mem_append_right u h1
  exact keepPhase_good s c (collapse_subset _ c h2)

/-- Claim C6 --- Slugify is idempotent: for every string s, slugify (slugify s)
equals slugify s, including the empty-slug fallback to the literal "section". -/
theorem C6_slugify_idempotent : ∀ s : Str, slugify (slugify s) = slugify s := by
  intro s
  unfold slugify
  set r := stripDashes (collapse (keepPhase s)) with hr
  by_cases hnil : r = []
  · rw [if_pos hnil]
    decide
  · rw [if_neg hnil]
    have hgood : ∀ c ∈ r, goodChar c := slug_core_good s
    have hkeep : keepPhase r = r := keepPhase_fixed r hgood
    have hnoDD : hasDD r = false := slug_core_noDD s
    have hcol : collapse r = r := collapse_of_noDD hnoDD
    have hstrip : stripDashes r = r := by
      rw [hr]
      exact stripDashes_idem _
    simp only [hkeep, hcol, hstrip]
    rw [if_neg hnil]

end Docindex

end DocSet

namespace DocSet

/-! Generic lemmas about the string primitives, used for the parser claims. -/

theorem pyStartsWith_iff : ∀ (s p : Str), pyStartsWith s p = true ↔ ∃ t, s = p ++ t := by
  intro s p
  induction p generalizing s with
  | nil => simp [pyStartsWith]
  | cons c ps ih =>
    cases s with
    | nil =>
      simp only [pyStartsWith]
      constructor
      · intro h; simp at h
      · rintro ⟨t, ht⟩; simp at ht
    | cons a as =>
      simp only [pyStartsWith, Bool.and_eq_true, decide_eq_true_eq]
      constructor
      · rintro ⟨rfl, h⟩
        obtain ⟨t, rfl⟩ := (ih as).mp h
        exact ⟨t, rfl⟩
      · rintro ⟨t, ht⟩
        rw [List.cons_append] at ht
        injection ht with h1 h2
        exact ⟨h1, (ih as).mpr ⟨t, h2⟩⟩

theorem pyStartsWith_append (p t : Str) : pyStartsWith (p ++ t) p = true :=
  (pyStartsWith_iff _ _).mpr ⟨t, rfl⟩

theorem pyStartsWith_head {s : Str} {c : Char} {ps : Str}
    (h : pyStartsWith s (c :: ps) = true) : s.head? = some c := by
  obtain ⟨t, rfl⟩ := (pyStartsWith_iff _ _).mp h
  rfl

theorem head_dropRightWhile_nonspace {p : Char → Bool} {c : Char} (x : Str)
    (hc : p c = false) : (dropRightWhile p (c :: x)).head? = some c := by
  unfold dropRightWhile
  by_cases hr : dropRightWhile p x = []
  · rw [if_pos hr, if_neg (by simp [hc])]
    rfl
  · rw [if_neg hr]
    rfl

/-- The stripped form of a line beginning with two spaces, dash, space starts
with the dash. -/
theorem strip_item_head {raw : Str} (h : pyStartsWith raw (("  - ").data) = true) :
    (pyStrip raw).head? = some '-' := by
  obtain ⟨t, rfl⟩ := (pyStartsWith_iff _ _).mp h
  show (pyRstrip (pyLstrip (' ' :: ' ' :: '-' :: ' ' :: t))).head? = some '-'
  have : pyLstrip (' ' :: ' ' :: '-' :: ' ' :: t) = '-' :: ' ' :: t := by
    unfold pyLstrip
    rw [List.dropWhile_cons, if_pos (by decide), List.dropWhile_cons, if_pos (by decide),
      List.dropWhile_cons, if_neg (by decide)]
  rw [this]
  exact head_dropRightWhile_nonspace _ (by decide)

/-- Such a line never strips to the front-matter delimiter. -/
theorem strip_item_ne_delim {raw : Str} (h : pyStartsWith raw (("  - ").data) = true) :
    pyStrip raw ≠ ("---").data := by
  obtain ⟨t, rfl⟩ := (pyStartsWith_iff _ _).mp h
  show pyRstrip (pyLstrip (' ' :: ' ' :: '-' :: ' ' :: t)) ≠ ("---").data
  have hl : pyLstrip (' ' :: ' ' :: '-' :: ' ' :: t) = '-' :: ' ' :: t := by
    unfold pyLstrip
    rw [List.dropWhile_cons, if_pos (by decide), List.dropWhile_cons, if_pos (by decide),
      List.dropWhile_cons, if_neg (by decide)]
  rw [hl]
  show dropRightWhile pyIsSpace ('-' :: ' ' :: t) ≠ ("---").data
  unfold dropRightWhile
  by_cases hr : dropRightWhile pyIsSpace (' ' :: t) = []
  · rw [if_pos hr, if_neg (by simp [show pyIsSpace '-' = false from by decide])]
    intro hcontra
    simp [show ("---").data = ['-', '-', '-'] from rfl] at hcontra
  · rw [if_neg hr]
    intro hcontra
    rw [show ("---").data = ['-', '-', '-'] from rfl] at hcontra
    injection hcontra with h1 h2
    rcases Docindex.head_dropRightWhile (p := pyIsSpace) (' ' :: t) with hnil | hhead
    · exact hr hnil
    · rw [h2] at hhead
      simp at hhead

theorem pyStrip_head_not_space {s : Str} {c : Char}
    (h : (pyStrip s).head? = some c) : pyIsSpace c = false := by
  unfold pyStrip pyRstrip at h
  rcases Docindex.head_dropRightWhile (p := pyIsSpace) (pyLstrip s) with hnil | hhead
  · rw [hnil] at h; simp at h
  · rw [hhead] at h
    exact Docindex.head_dropWhile_false s c h

/-- Lines whose stripped form is either the delimiter or does not begin with a
dash: on such lines neither parser can reach an append-to-scalar error. -/
def plainLine (l : Str) : Prop :=
  pyStrip l = ("---").data ∨ (pyStrip l).head? ≠ some '-'

instance (l : Str) : Decidable (plainLine l) := by
  unfold plainLine
  infer_instance

theorem isOk_map {α β : Type} (f : α → β) (e : Except PErr α) :
    ((e.map f).isOk) = e.isOk := by
  cases e <;> rfl

theorem goIdx_ok_of_plain :
    ∀ (lines : List Str) (d : Dict FMValue) (ck : Option Str) (idx : Nat),
      (∀ l ∈ lines, plainLine l) → (Docindex.goIdx d ck idx lines).isOk = true := by
  intro lines
  induction lines with
  | nil => intro d ck idx _; rfl
  | cons raw rest ih =>
    intro d ck idx h
    have hraw := h raw (List.mem_cons_self _ _)
    have hrest : ∀ l ∈ rest, plainLine l := fun l hl => h l (List.mem_cons_of_mem _ hl)
    unfold Docindex.goIdx
    by_cases hdelim : pyStrip raw = ("---").data
    · rw [if_pos hdelim]; rfl
    · rw [if_neg hdelim]
      have hhead : (pyStrip raw).head? ≠ some '-' := by
        rcases hraw with h1 | h1
        · exact absurd h1 hdelim
        · exact h1
      have hnotitem : pyStartsWith raw (("  - ").data) = false := by
        by_contra hc
        simp only [Bool.not_eq_false] at hc
        exact hhead (strip_item_head hc)
      have hstep : ∃ p, Docindex.lineStep d ck raw = .ok p := by
        unfold Docindex.lineStep
        rw [hnotitem]
        cases ck with
        | none =>
          by_cases hcol : hasColon raw = false
          · rw [if_pos hcol]; exact ⟨_, rfl⟩
          · rw [if_neg hcol]; exact ⟨_, rfl⟩
        | some k =>
          by_cases hcol : hasColon raw = false
          · rw [if_pos hcol]; exact ⟨_, rfl⟩
          · rw [if_neg hcol]; exact ⟨_, rfl⟩
      obtain ⟨p, hp⟩ := hstep
      rw [hp]
      exact ih p.1 p.2 (idx + 1) hrest

theorem metaFlat_ok_of_plain (st : Docmeta.MState) (d : Dict FMValue)
    (raw stripped : Str) (indent : Nat)
    (hs : stripped = pyStrip raw)
    (hhead : (pyStrip raw).head? ≠ some '-') :
    ∃ st', Docmeta.metaFlat st d raw stripped indent = .ok st' := by
  subst hs
  have hno1 : pyStartsWith (pyStrip raw) (("- ").data) = false := by
    by_contra hc
    simp only [Bool.not_eq_false] at hc
    exact hhead (pyStartsWith_head hc)
  have hno2 : pyStartsWith (pyStrip raw) (("  - ").data) = false := by
    by_contra hc
    simp only [Bool.not_eq_false] at hc
    have := pyStartsWith_head hc
    have := pyStrip_head_not_space this
    simp [pyIsSpace, wsChars] at this
  unfold Docmeta.metaFlat
  rw [hno1, hno2]
  cases st.current with
  | none =>
    by_cases hcol : hasColon raw = false
    · rw [if_pos hcol]; exact ⟨_, rfl⟩
    · rw [if_neg hcol]; exact ⟨_, rfl⟩
  | some k =>
    by_cases hcol : hasColon raw = false
    · rw [if_pos hcol]; exact ⟨_, rfl⟩
    · rw [if_neg hcol]; exact ⟨_, rfl⟩

theorem metaNested_ok_of_plain (st : Docmeta.MState)
    (raw stripped : Str) (indent : Nat) (pk : Str)
    (hs : stripped = pyStrip raw)
    (hhead : (pyStrip raw).head? ≠ some '-') :
    ∃ st', Docmeta.metaNested st raw stripped indent pk = .ok st' := by
  have hno1 : pyStartsWith stripped (("- ").data) = false := by
    subst hs
    by_contra hc
    simp only [Bool.not_eq_false] at hc
    exact hhead (pyStartsWith_head hc)
  unfold Docmeta.metaNested
  cases ht : dGet st.d pk with
  | none =>
    simp only [ht]
    exact metaFlat_ok_of_plain _ _ _ _ _ hs hhead
  | some v =>
    cases v with
    | str s => simp only [ht]; exact metaFlat_ok_of_plain _ _ _ _ _ hs hhead
    | int n => simp only [ht]; exact metaFlat_ok_of_plain _ _ _ _ _ hs hhead
    | list xs =>
      -- the conversion turns the list target into an empty dict, so the dict
      -- branch applies with no possible "- " item line
      simp only [ht, hno1, reduceIte]
      by_cases hcol : hasColon stripped = true
      · rw [if_pos hcol]
        exact ⟨_, rfl⟩
      · rw [if_neg hcol]
        exact metaFlat_ok_of_plain _ _ _ _ _ hs hhead
    | dict m =>
      simp only [ht, hno1, reduceIte]
      by_cases hcol : hasColon stripped = true
      · rw [if_pos hcol]
        exact ⟨_, rfl⟩
      · rw [if_neg hcol]
        exact metaFlat_ok_of_plain _ _ _ _ _ hs hhead

theorem goStream_ok_of_plain :
    ∀ (lines : List Str) (st : Docmeta.MState),
      (∀ l ∈ lines, plainLine l) → (Docmeta.goStream st lines).isOk = true := by
  intro lines
  induction lines with
  | nil => intro st _; rfl
  | cons raw rest ih =>
    intro st h
    have hraw := h raw (List.mem_cons_self _ _)
    have hrest : ∀ l ∈ rest, plainLine l := fun l hl => h l (List.mem_cons_of_mem _ hl)
    unfold Docmeta.goStream
    by_cases hdelim : pyStrip raw = ("---").data
    · rw [if_pos hdelim]; rfl
    · rw [if_neg hdelim]
      have hhead : (pyStrip raw).head? ≠ some '-' := by
        rcases hraw with h1 | h1
        · exact absurd h1 hdelim
        · exact h1
      obtain ⟨d0, raws0, parent0, nested0, current0⟩ := st
      cases parent0 with
      | none =>
        dsimp only
        obtain ⟨st', hst'⟩ := metaFlat_ok_of_plain
          ⟨d0, raws0 ++ [raw], none, nested0, current0⟩ d0 raw (pyStrip raw)
          (raw.length - (raw.dropWhile (fun c => c = ' ')).length) rfl hhead
        rw [hst']
        exact ih st' hrest
      | some pk =>
        dsimp only
        cases hkt : decide (0 < raw.length - (raw.dropWhile (fun c => c = ' ')).length) &&
            keyTruthy (some pk) with
        | true =>
          dsimp only
          obtain ⟨st', hst'⟩ := metaNested_ok_of_plain
            ⟨d0, raws0 ++ [raw], some pk, nested0, current0⟩ raw (pyStrip raw)
            (raw.length - (raw.dropWhile (fun c => c = ' ')).length) pk rfl hhead
          rw [hst']
          exact ih st' hrest
        | false =>
          dsimp only
          obtain ⟨st', hst'⟩ := metaFlat_ok_of_plain
            ⟨d0, raws0 ++ [raw], some pk, nested0, current0⟩ d0 raw (pyStrip raw)
            (raw.length - (raw.dropWhile (fun c => c = ' ')).length) rfl hhead
          rw [hst']
          exact ih st' hrest

end DocSet

namespace DocSet

/-- Claim C1 (amended) --- Front-matter parsing never raises on inputs whose
lines (after stripping) are the delimiter or do not begin with a dash: an
absent or malformed header yields an empty mapping / (none, 0) rather than an
error, colon-free lines are skipped, and both parsers return a mapping.  (As
originally stated the claim is false: an indented item line under a key
holding a scalar raises an AttributeError; see the counterexample.) -/
theorem C1_front_matter_no_raise_amended :
    (Docindex.parse_front_matter [] = .ok (none, 0) ∧
      Docmeta.parse_front_matter_stream [] = .ok ([], [], [], [])) ∧
    (∀ (l0 : Str) (rest : List Str), pyStrip l0 ≠ ("---").data →
      Docindex.parse_front_matter (l0 :: rest) = .ok (none, 0) ∧
      Docmeta.parse_front_matter_stream (l0 :: rest) = .ok ([], [], [l0], rest)) ∧
    (∀ lines : List Str, (∀ l ∈ lines, plainLine l) →
      (Docindex.parse_front_matter lines).isOk = true ∧
      (Docmeta.parse_front_matter_stream lines).isOk = true) := by
  refine ⟨⟨rfl, rfl⟩, ?_, ?_⟩
  · intro l0 rest h
    constructor
    · show (if pyStrip l0 = ("---").data then
          Except.map (fun p => (some p.1, p.2)) (Docindex.goIdx [] none 1 rest)
        else Except.ok (none, 0)) = Except.ok (none, 0)
      rw [if_neg h]
    · show (if pyStrip l0 = ("---").data then
          Docmeta.goStream ⟨[], [], none, none, none⟩ rest
        else Except.ok ([], [], [l0], rest)) = Except.ok ([], [], [l0], rest)
      rw [if_neg h]
  · intro lines h
    cases lines with
    | nil => exact ⟨rfl, rfl⟩
    | cons l0 rest =>
      have hrest : ∀ l ∈ rest, plainLine l := fun l hl => h l (List.mem_cons_of_mem _ hl)
      constructor
      · show (if pyStrip l0 = ("---").data then
            Except.map (fun p => (some p.1, p.2)) (Docindex.goIdx [] none 1 rest)
          else Except.ok (none, 0)).isOk = true
        by_cases hd : pyStrip l0 = ("---").data
        · rw [if_pos hd, isOk_map]
          exact goIdx_ok_of_plain rest [] none 1 hrest
        · rw [if_neg hd]
          rfl
      · show (if pyStrip l0 = ("---").data then
            Docmeta.goStream ⟨[], [], none, none, none⟩ rest
          else Except.ok ([], [], [l0], rest)).isOk = true
        by_cases hd : pyStrip l0 = ("---").data
        · rw [if_pos hd]
          exact goStream_ok_of_plain rest ⟨[], [], none, none, none⟩ hrest
        · rw [if_neg hd]
          rfl

/-- Witness for C1: the amended theorem applied at concrete inputs --- a
document with no front matter and a well-formed front-matter document. -/
theorem C1_front_matter_no_raise_witness :
    Docindex.parse_front_matter ((["no header", "text"]).map (fun s => s.data)) =
      .ok (none, 0) ∧
    (Docindex.parse_front_matter
      ((["---", "title: Demo", "doc_count: 3", "junk line", "---", "body"]).map
        (fun s => s.data))).isOk = true ∧
    (Docmeta.parse_front_matter_stream
      ((["---", "title: Demo", "doc_count: 3", "junk line", "---", "body"]).map
        (fun s => s.data))).isOk = true := by
  refine ⟨?_, ?_, ?_⟩
  · exact (C1_front_matter_no_raise_amended.2.1 (("no header").data)
      [("text").data] (by decide)).1
  · exact (C1_front_matter_no_raise_amended.2.2 _ (by decide)).1
  · exact (C1_front_matter_no_raise_amended.2.2 _ (by decide)).2

/-- Counterexample to C1 as stated: the exact input the claim calls out (a
key: value line with a non-empty scalar value followed by an indented item
line) makes both parsers raise an AttributeError. -/
theorem C1_front_matter_no_raise_counterexample :
    Docindex.parse_front_matter ((["---", "k: v", "  - item", "---"]).map
      (fun s => s.data)) = .error .attrError ∧
    Docmeta.parse_front_matter_stream ((["---", "k: v", "  - item", "---"]).map
      (fun s => s.data)) = .error .attrError :=
  ⟨rfl, rfl⟩

/-- Claim C2 (amended) --- After a key: value line stores a scalar (string or
integer) under a truthy (non-empty) key, a following two-space-indented
"- item" line does not append to that key: it raises an AttributeError,
aborting the parse.  List items accumulate only when the current key holds a
list value; and when the current key is the empty string (from a line like
": v") the item branch is skipped entirely by the `and current_key` guard. -/
theorem C2_scalar_then_item_amended :
    ∀ (d : Dict FMValue) (k item : Str) (rest : List Str) (idx : Nat),
      (k ≠ [] → ∀ v : Str, dGet d k = some (.str v) →
        Docindex.goIdx d (some k) idx ((("  - ").data ++ item) :: rest) =
          .error .attrError) ∧
      (k ≠ [] → ∀ n : Int, dGet d k = some (.int n) →
        Docindex.goIdx d (some k) idx ((("  - ").data ++ item) :: rest) =
          .error .attrError) ∧
      (k ≠ [] → ∀ xs : List Str, dGet d k = some (.list xs) →
        Docindex.goIdx d (some k) idx ((("  - ").data ++ item) :: rest) =
          Docindex.goIdx (dSet d k (.list (xs ++ [pyStrip item]))) (some k) (idx + 1) rest) ∧
      (hasColon ((("  - ").data ++ item)) = false →
        Docindex.goIdx d (some ([] : Str)) idx ((("  - ").data ++ item) :: rest) =
          Docindex.goIdx d (some ([] : Str)) (idx + 1) rest) := by
  intro d k item rest idx
  have hstarts : pyStartsWith ((("  - ").data ++ item)) (("  - ").data) = true :=
    pyStartsWith_append _ _
  have hne : pyStrip ((("  - ").data ++ item)) ≠ ("---").data :=
    strip_item_ne_delim hstarts
  have hdrop : ((("  - ").data ++ item)).drop 4 = item := by
    have h4 : (("  - ").data).length = 4 := rfl
    rw [← h4]
    exact List.drop_left _ _
  refine ⟨?_, ?_, ?_, ?_⟩
  · intro hk v hget
    have hkt : keyTruthy (some k) = true := by
      cases k with
      | nil => exact absurd rfl hk
      | cons c cs => rfl
    conv_lhs => rw [Docindex.goIdx]
    rw [if_neg hne]
    simp only [Docindex.lineStep, hstarts, hkt, Bool.true_and, hdrop, appendItem, hget,
      Except.map]
  · intro hk n hget
    have hkt : keyTruthy (some k) = true := by
      cases k with
      | nil => exact absurd rfl hk
      | cons c cs => rfl
    conv_lhs => rw [Docindex.goIdx]
    rw [if_neg hne]
    simp only [Docindex.lineStep, hstarts, hkt, Bool.true_and, hdrop, appendItem, hget,
      Except.map]
  · intro hk xs hget
    have hkt : keyTruthy (some k) = true := by
      cases k with
      | nil => exact absurd rfl hk
      | cons c cs => rfl
    conv_lhs => rw [Docindex.goIdx]
    rw [if_neg hne]
    simp only [Docindex.lineStep, hstarts, hkt, Bool.true_and, hdrop, appendItem, hget,
      Except.map]
  · intro hcol
    conv_lhs => rw [Docindex.goIdx]
    rw [if_neg hne]
    have hstep : Docindex.lineStep d (some ([] : Str)) ((("  - ").data ++ item)) =
        .ok (d, some ([] : Str)) := by
      unfold Docindex.lineStep
      rw [show (pyStartsWith ((("  - ").data ++ item)) (("  - ").data) &&
          keyTruthy (some ([] : Str))) = false by rw [hstarts]; rfl]
      dsimp only
      rw [if_pos hcol]
    rw [hstep]

/-- Witness for C2: the amended theorem applied at concrete states --- a key
holding the integer 7 raises, a key holding a list accumulates the item, and
the empty-string key skips the item line. -/
theorem C2_scalar_then_item_witness :
    Docindex.goIdx [(("count").data, FMValue.int 7)] (some (("count").data)) 1
      [("  - ").data ++ ("item").data] = .error .attrError ∧
    Docindex.goIdx [(("tags").data, FMValue.list [("a").data])] (some (("tags").data)) 1
      [("  - ").data ++ ("item").data] =
      Docindex.goIdx
        (dSet [(("tags").data, FMValue.list [("a").data])] (("tags").data)
          (.list ([("a").data] ++ [pyStrip (("item").data)])))
        (some (("tags").data)) 2 [] ∧
    Docindex.goIdx [] (some ([] : Str)) 1 [("  - ").data ++ ("item").data] =
      Docindex.goIdx [] (some ([] : Str)) 2 [] := by
  refine ⟨?_, ?_, ?_⟩
  · exact (C2_scalar_then_item_amended [(("count").data, FMValue.int 7)]
      (("count").data) (("item").data) [] 1).2.1 (by decide) 7 (by decide)
  · exact (C2_scalar_then_item_amended [(("tags").data, FMValue.list [("a").data])]
      (("tags").data) (("item").data) [] 1).2.2.1 (by decide) [("a").data] (by decide)
  · exact (C2_scalar_then_item_amended [] [] (("item").data) [] 1).2.2.2 (by decide)

/-- Counterexample to C2 as stated: after count: 7 stores a scalar, the
indented item line does not append a sequence element --- the whole parse
raises; the parser returns no mapping at all for this document. -/
theorem C2_scalar_then_item_counterexample :
    Docindex.parse_front_matter ((["---", "count: 7", "  - item", "---"]).map
      (fun s => s.data)) = .error .attrError :=
  rfl

end DocSet

namespace DocSet

theorem tocCond_false {scanned m : Nat} (h : scanned < m) :
    ¬((m : Int) ≠ 0 ∧ ((scanned + 1 : Nat) : Int) > (m : Int)) := by
  intro hcon
  have h2 := hcon.2
  push_cast at h2
  omega

theorem tocCond_true {scanned m : Nat} (h0 : 0 < m) (h : m ≤ scanned) :
    ((m : Int) ≠ 0 ∧ ((scanned + 1 : Nat) : Int) > (m : Int)) := by
  constructor
  · simp only [ne_eq, Nat.cast_eq_zero]
    omega
  · push_cast
    omega

/-- The TOC scan with a positive budget m depends only on the lines up to the
truncation point: everything beyond the first m + 1 - k lines (k already
scanned) is ignored. -/
theorem goToc_take :
    ∀ (lines : List Str) (toc : List Str) (started : Bool) (scanned m : Nat),
      0 < m → scanned ≤ m →
      Docmeta.goToc toc started scanned (m : Int) lines =
        Docmeta.goToc toc started scanned (m : Int) (lines.take (m + 1 - scanned)) := by
  intro lines
  induction lines with
  | nil => intro toc started scanned m _ _; simp
  | cons raw rest ih =>
    intro toc started scanned m hm hs
    have htake : (raw :: rest).take (m + 1 - scanned) = raw :: rest.take (m - scanned) := by
      have h1 : m + 1 - scanned = (m - scanned) + 1 := by omega
      rw [h1, List.take_succ_cons]
    rw [htake]
    by_cases heq : scanned = m
    · subst heq
      simp only [Docmeta.goToc]
      rw [if_pos (tocCond_true hm le_rfl), if_pos (tocCond_true hm le_rfl)]
    · have hlt : scanned < m := by omega
      have hih : ∀ (toc' : List Str) (started' : Bool),
          Docmeta.goToc toc' started' (scanned + 1) (m : Int) rest =
            Docmeta.goToc toc' started' (scanned + 1) (m : Int) (rest.take (m - scanned)) := by
        intro toc' started'
        have harith : m + 1 - (scanned + 1) = m - scanned := by omega
        have h1 := ih toc' started' (scanned + 1) m hm (by omega)
        rwa [harith] at h1
      simp only [Docmeta.goToc]
      rw [if_neg (tocCond_false hlt), if_neg (tocCond_false hlt)]
      cases started with
      | false =>
        simp only [reduceIte]
        by_cases hdr : pyStrip raw = ("## Table of Contents").data
        · rw [if_pos hdr, if_pos hdr]
          exact hih _ _
        · rw [if_neg hdr, if_neg hdr]
          exact hih _ _
      | true =>
        rw [if_neg (show ¬(true = false) by decide),
          if_neg (show ¬(true = false) by decide)]
        by_cases hh : pyStartsWith (pyStrip raw) (("## ").data) = true ∧
            pyStrip raw ≠ ("## Table of Contents").data
        · rw [if_pos hh, if_pos hh]
        · rw [if_neg hh, if_neg hh]
          by_cases hblank : pyStrip raw = ([] : Str)
          · rw [if_pos hblank, if_pos hblank]
            exact hih _ _
          · rw [if_neg hblank, if_neg hblank]
            exact hih _ _

/-- When the budgeted TOC scan truncates, its collected block is exactly what
an unlimited scan (budget 0, which Python treats as falsy) collects from the
lines before the truncation point, and the input extends beyond the budget. -/
theorem goToc_trunc :
    ∀ (lines : List Str) (toc : List Str) (started : Bool) (scanned m : Nat),
      0 < m → scanned ≤ m →
      (Docmeta.goToc toc started scanned (m : Int) lines).2 = true →
      Docmeta.goToc toc started scanned (m : Int) lines =
        ((Docmeta.goToc toc started scanned 0 (lines.take (m - scanned))).1, true) ∧
      m - scanned < lines.length := by
  intro lines
  induction lines with
  | nil =>
    intro toc started scanned m _ _ htr
    simp [Docmeta.goToc] at htr
  | cons raw rest ih =>
    intro toc started scanned m hm hs htr
    by_cases heq : scanned = m
    · subst heq
      have hz : scanned - scanned = 0 := by omega
      rw [hz]
      constructor
      · simp only [Docmeta.goToc]
        rw [if_pos (tocCond_true hm le_rfl)]
      · simp only [List.length_cons]
        omega
    · have hlt : scanned < m := by omega
      have htake : (raw :: rest).take (m - scanned) = raw :: rest.take (m - (scanned + 1)) := by
        have h1 : m - scanned = (m - (scanned + 1)) + 1 := by omega
        rw [h1, List.take_succ_cons]
      rw [htake]
      simp only [Docmeta.goToc] at htr ⊢
      rw [if_neg (tocCond_false hlt)] at htr
      rw [if_neg (tocCond_false hlt),
        if_neg (show ¬(((0 : Int) ≠ 0) ∧ ((scanned + 1 : Nat) : Int) > (0 : Int)) from
          fun hc => hc.1 rfl)]
      cases started with
      | false =>
        simp only [reduceIte] at htr ⊢
        by_cases hdr : pyStrip raw = ("## Table of Contents").data
        · rw [if_pos hdr] at htr
          rw [if_pos hdr, if_pos hdr]
          have h1 := ih _ _ _ _ hm (by omega) htr
          refine ⟨h1.1, ?_⟩
          have := h1.2
          simp only [List.length_cons]
          omega
        · rw [if_neg hdr] at htr
          rw [if_neg hdr, if_neg hdr]
          have h1 := ih _ _ _ _ hm (by omega) htr
          refine ⟨h1.1, ?_⟩
          have := h1.2
          simp only [List.length_cons]
          omega
      | true =>
        rw [if_neg (show ¬(true = false) by decide)] at htr
        rw [if_neg (show ¬(true = false) by decide),
          if_neg (show ¬(true = false) by decide)]
        by_cases hh : pyStartsWith (pyStrip raw) (("## ").data) = true ∧
            pyStrip raw ≠ ("## Table of Contents").data
        · rw [if_pos hh] at htr
          simp at htr
        · rw [if_neg hh] at htr
          rw [if_neg hh, if_neg hh]
          by_cases hblank : pyStrip raw = ([] : Str)
          · rw [if_pos hblank] at htr
            rw [if_pos hblank, if_pos hblank]
            have h1 := ih _ _ _ _ hm (by omega) htr
            refine ⟨h1.1, ?_⟩
            have := h1.2
            simp only [List.length_cons]
            omega
          · rw [if_neg hblank] at htr
            rw [if_neg hblank, if_neg hblank]
            have h1 := ih _ _ _ _ hm (by omega) htr
            refine ⟨h1.1, ?_⟩
            have := h1.2
            simp only [List.length_cons]
            omega

end DocSet

namespace DocSet

/-- Claim C4 --- The TOC scanner stops once max_lines lines have been scanned:
(i) with a positive budget m the result depends only on the lines up to the
truncation point (the first m + 1); (ii) whenever it flags truncation, the
returned block is exactly the block collected from the m lines scanned before
the stop (an unlimited scan of them) and the input indeed had more than m
lines; (iii) concretely, with max_lines = 5 and a TOC block starting at line 3
of a 20-line document, it reports truncation and returns only the non-blank
TOC lines scanned before the stop. -/
theorem C4_toc_scanner_truncation :
    (∀ (lines : List Str) (m : Nat), 0 < m →
      Docmeta.read_toc_block lines (m : Int) =
        Docmeta.read_toc_block (lines.take (m + 1)) (m : Int)) ∧
    (∀ (lines : List Str) (m : Nat), 0 < m →
      (Docmeta.read_toc_block lines (m : Int)).2 = true →
      Docmeta.read_toc_block lines (m : Int) =
        ((Docmeta.read_toc_block (lines.take m) 0).1, true) ∧ m < lines.length) ∧
    Docmeta.read_toc_block
      ((["intro text", "", "## Table of Contents", "", "- [S1](#s1)", "- [S2](#s2)",
         "- [S3](#s3)", "- [S4](#s4)", "- [S5](#s5)", "- [S6](#s6)", "- [S7](#s7)",
         "- [S8](#s8)", "- [S9](#s9)", "- [S10](#s10)", "- [S11](#s11)",
         "- [S12](#s12)", "- [S13](#s13)", "- [S14](#s14)", "- [S15](#s15)",
         "- [S16](#s16)"]).map (fun s => s.data)) (5 : Int) =
      ((["## Table of Contents", "- [S1](#s1)"]).map (fun s => s.data), true) := by
  refine ⟨?_, ?_, ?_⟩
  · intro lines m hm
    have h := goToc_take lines [] false 0 m hm (Nat.zero_le m)
    simpa [Docmeta.read_toc_block] using h
  · intro lines m hm htr
    have h := goToc_trunc lines [] false 0 m hm (Nat.zero_le m)
      (by simpa [Docmeta.read_toc_block] using htr)
    constructor
    · have h1 := h.1
      simp only [Nat.sub_zero] at h1
      simpa [Docmeta.read_toc_block] using h1
    · have h2 := h.2
      simpa using h2
  · rfl

/-- Witness for C4: the two universally quantified parts applied to the
concrete 20-line fixture with budget 5. -/
theorem C4_toc_scanner_truncation_witness :
    Docmeta.read_toc_block
      ((["intro text", "", "## Table of Contents", "", "- [S1](#s1)", "- [S2](#s2)",
         "- [S3](#s3)", "- [S4](#s4)", "- [S5](#s5)", "- [S6](#s6)", "- [S7](#s7)",
         "- [S8](#s8)", "- [S9](#s9)", "- [S10](#s10)", "- [S11](#s11)",
         "- [S12](#s12)", "- [S13](#s13)", "- [S14](#s14)", "- [S15](#s15)",
         "- [S16](#s16)"]).map (fun s => s.data)) (5 : Int) =
      Docmeta.read_toc_block
        (((["intro text", "", "## Table of Contents", "", "- [S1](#s1)", "- [S2](#s2)",
           "- [S3](#s3)", "- [S4](#s4)", "- [S5](#s5)", "- [S6](#s6)", "- [S7](#s7)",
           "- [S8](#s8)", "- [S9](#s9)", "- [S10](#s10)", "- [S11](#s11)",
           "- [S12](#s12)", "- [S13](#s13)", "- [S14](#s14)", "- [S15](#s15)",
           "- [S16](#s16)"]).map (fun s => s.data)).take 6) (5 : Int) ∧
    (5 : Nat) <
      ((["intro text", "", "## Table of Contents", "", "- [S1](#s1)", "- [S2](#s2)",
         "- [S3](#s3)", "- [S4](#s4)", "- [S5](#s5)", "- [S6](#s6)", "- [S7](#s7)",
         "- [S8](#s8)", "- [S9](#s9)", "- [S10](#s10)", "- [S11](#s11)",
         "- [S12](#s12)", "- [S13](#s13)", "- [S14](#s14)", "- [S15](#s15)",
         "- [S16](#s16)"]).map (fun s => s.data)).length := by
  constructor
  · exact C4_toc_scanner_truncation.1 _ 5 (by decide)
  · exact (C4_toc_scanner_truncation.2.1 _ 5 (by decide) (by rfl)).2

end DocSet

namespace DocSet

namespace Docindex

/-- The heading (text, capped level) that _collect_headings extracts from a
line, when the line is a heading line with non-empty text. -/
def headingOf (raw : Str) : Option (Str × Nat) :=
  let content := pyLstrip raw
  if pyStartsWith content ("#").data = false then none
  else
    let level := content.length - (content.dropWhile (fun c => c = '#')).length
    let text := pyStrip (content.drop level)
    if text = [] then none else some (text, min level 6)

/-- A line the heading collector passes over without effect: neither an anchor
marker nor a heading line with non-empty text. -/
def skipsHeading (raw : Str) : Prop :=
  anchorMatch (pyStrip raw) = none ∧ headingOf raw = none

instance (raw : Str) : Decidable (skipsHeading raw) := by
  unfold skipsHeading
  infer_instance

theorem collectAux_skip {raw : Str} (h : skipsHeading raw) :
    ∀ (p : Option Str) (rest : List Str),
      collectAux p (raw :: rest) = collectAux p rest := by
  intro p rest
  obtain ⟨h1, h2⟩ := h
  conv_lhs => rw [collectAux]
  rw [h1]
  dsimp only
  unfold headingOf at h2
  by_cases hs : pyStartsWith (pyLstrip raw) (("#").data) = false
  · rw [if_pos hs]
  · rw [if_neg hs] at h2 ⊢
    simp only at h2
    by_cases ht : pyStrip ((pyLstrip raw).drop
        ((pyLstrip raw).length - ((pyLstrip raw).dropWhile (fun c => c = '#')).length)) = []
    · rw [if_pos ht]
    · rw [if_neg ht] at h2
      exact absurd h2 (by simp)

theorem collectAux_skip_all {junk : List Str} (h : ∀ l ∈ junk, skipsHeading l) :
    ∀ (p : Option Str) (rest : List Str),
      collectAux p (junk ++ rest) = collectAux p rest := by
  induction junk with
  | nil => intro p rest; rfl
  | cons a js ih =>
    intro p rest
    rw [List.cons_append, collectAux_skip (h a (List.mem_cons_self _ _))]
    exact ih (fun l hl => h l (List.mem_cons_of_mem _ hl)) p rest

theorem collectAux_heading {raw : Str} {t : Str} {lv : Nat}
    (hanchor : anchorMatch (pyStrip raw) = none)
    (hhead : headingOf raw = some (t, lv)) :
    ∀ (p : Option Str) (rest : List Str),
      collectAux p (raw :: rest) =
        ⟨t, p.getD (slugify t), lv⟩ :: collectAux none rest := by
  intro p rest
  conv_lhs => rw [collectAux]
  rw [hanchor]
  dsimp only
  unfold headingOf at hhead
  by_cases hs : pyStartsWith (pyLstrip raw) (("#").data) = false
  · rw [if_pos hs] at hhead
    exact absurd hhead (by simp)
  · rw [if_neg hs] at hhead ⊢
    simp only at hhead
    by_cases ht : pyStrip ((pyLstrip raw).drop
        ((pyLstrip raw).length - ((pyLstrip raw).dropWhile (fun c => c = '#')).length)) = []
    · rw [if_pos ht] at hhead
      exact absurd hhead (by simp)
    · rw [if_neg ht] at hhead ⊢
      injection hhead with hh
      injection hh with hh1 hh2
      rw [hh1, hh2]

end Docindex

/-- Claim C5 --- An explicit anchor marker binds to the next heading line only:
with a pending anchor X, the first heading (after any non-marker non-heading
lines) receives anchor X, and a second heading with no intervening marker
receives the slug of its own text --- the pending anchor is consumed by exactly
one heading and never persists. -/
theorem C5_anchor_consumed_once :
    ∀ (X : Str) (marker l1 l2 : Str) (junk1 junk2 rest : List Str)
      (t1 t2 : Str) (lv1 lv2 : Nat),
      Docindex.anchorMatch (pyStrip marker) = some X →
      (∀ l ∈ junk1, Docindex.skipsHeading l) →
      Docindex.anchorMatch (pyStrip l1) = none →
      Docindex.headingOf l1 = some (t1, lv1) →
      (∀ l ∈ junk2, Docindex.skipsHeading l) →
      Docindex.anchorMatch (pyStrip l2) = none →
      Docindex.headingOf l2 = some (t2, lv2) →
      Docindex.collectAux none (marker :: (junk1 ++ (l1 :: (junk2 ++ (l2 :: rest))))) =
        ⟨t1, X, lv1⟩ :: ⟨t2, Docindex.slugify t2, lv2⟩ :: Docindex.collectAux none rest := by
  intro X marker l1 l2 junk1 junk2 rest t1 t2 lv1 lv2 hm hj1 ha1 hh1 hj2 ha2 hh2
  have hstep : Docindex.collectAux none (marker :: (junk1 ++ (l1 :: (junk2 ++ (l2 :: rest))))) =
      Docindex.collectAux (some X) (junk1 ++ (l1 :: (junk2 ++ (l2 :: rest)))) := by
    conv_lhs => rw [Docindex.collectAux]
    rw [hm]
  rw [hstep]
  rw [Docindex.collectAux_skip_all hj1 (some X) (l1 :: (junk2 ++ (l2 :: rest)))]
  rw [Docindex.collectAux_heading ha1 hh1 (some X) (junk2 ++ (l2 :: rest))]
  rw [Docindex.collectAux_skip_all hj2 none (l2 :: rest)]
  rw [Docindex.collectAux_heading ha2 hh2 none rest]
  rfl

/-- Witness for C5: a marker, a heading consuming it, and a second heading
that falls back to its own slug. -/
theorem C5_anchor_consumed_once_witness :
    Docindex.collectAux none
      (((["<a id=\"overview\"></a>", "", "intro text", "## Overview", "body text",
         "### Details"]).map (fun s => s.data))) =
      [⟨("Overview").data, ("overview").data, 2⟩,
       ⟨("Details").data, ("details").data, 3⟩] := by
  have h := C5_anchor_consumed_once (("overview").data)
    (("<a id=\"overview\"></a>").data)
    (("## Overview").data) (("### Details").data)
    (([(""), ("intro text")]).map (fun s => s.data))
    ([("body text")].map (fun s => s.data)) []
    (("Overview").data) (("Details").data) 2 3
    (by rfl) (by decide) (by rfl) (by rfl) (by decide) (by rfl) (by rfl)
  have hslug : Docindex.slugify (("Details").data) = ("details").data := by rfl
  rw [hslug] at h
  exact h

end DocSet

namespace DocSet

theorem key_eq_iff (path a b : Str) :
    (path ++ '#' :: a = path ++ '#' :: b) ↔ a = b := by
  constructor
  · intro h
    have h2 := List.append_cancel_left h
    injection h2
  · rintro rfl
    rfl

/-- Claim C7 --- For a search term occurring case-insensitively both in a
heading's text and in a key-section string of the same entry, search_entries
yields the heading line and the key-section line when the heading's anchor
differs from the section's slug, and only the heading line when they
coincide: duplicate suppression is keyed by (path, anchor). -/
theorem C7_search_dedup_by_path_anchor :
    ∀ (path title htext hanchor sec term : Str) (lv : Nat),
      pyContains (pyLowerStr htext) (pyLowerStr term) = true →
      pyContains (pyLowerStr sec) (pyLowerStr term) = true →
      (hanchor ≠ Docindex.slugify sec →
        Docindex.search_entries
          [⟨path, .str title, .str [], .str [], .int 0, .int 0, .list [sec],
            [⟨htext, hanchor, lv⟩]⟩] term =
          [title ++ (": ").data ++ htext ++ (" — ").data ++ (path ++ '#' :: hanchor),
           title ++ (": ").data ++ sec ++ (" — ").data ++
             (path ++ '#' :: Docindex.slugify sec)]) ∧
      (hanchor = Docindex.slugify sec →
        Docindex.search_entries
          [⟨path, .str title, .str [], .str [], .int 0, .int 0, .list [sec],
            [⟨htext, hanchor, lv⟩]⟩] term =
          [title ++ (": ").data ++ htext ++ (" — ").data ++ (path ++ '#' :: hanchor)]) := by
  intro path title htext hanchor sec term lv h1 h2
  have hheads : Docindex.searchHeadings (pyLowerStr term) path title
      [⟨htext, hanchor, lv⟩] [] [] =
      ([title ++ (": ").data ++ htext ++ (" — ").data ++ (path ++ '#' :: hanchor)],
       [path ++ '#' :: hanchor]) := by
    unfold Docindex.searchHeadings
    rw [if_pos (by rw [h1]), if_neg (by simp)]
    simp [Docindex.searchHeadings]
  constructor
  · intro hne
    unfold Docindex.search_entries Docindex.searchGo
    dsimp only [Docindex.fmtVal, Docindex.iterVal]
    rw [hheads]
    unfold Docindex.searchSections
    rw [if_pos (by rw [h2]),
      if_neg (by
        simp only [List.mem_singleton]
        intro hc
        exact hne ((key_eq_iff path _ _).mp hc).symm)]
    rfl
  · intro heq
    unfold Docindex.search_entries Docindex.searchGo
    dsimp only [Docindex.fmtVal, Docindex.iterVal]
    rw [hheads]
    unfold Docindex.searchSections
    rw [if_pos (by rw [h2]),
      if_pos (by
        simp only [List.mem_singleton]
        exact (key_eq_iff path _ _).mpr heq.symm)]
    rfl

/-- Witness for C7: both cases on a literal fixture; the section "Demo Section"
slugifies to "demosection", and headings with anchors "demo-section" (distinct)
and "demosection" (coinciding) give two result lines and one respectively. -/
theorem C7_search_dedup_by_path_anchor_witness :
    Docindex.search_entries
      [⟨("docs/demo.md").data, .str ("Demo").data, .str [], .str [], .int 0, .int 0,
        .list [("Demo Section").data],
        [⟨("Demo Section").data, ("demo-section").data, 2⟩]⟩] (("demo").data) =
      [("Demo: Demo Section — docs/demo.md#demo-section").data,
       ("Demo: Demo Section — docs/demo.md#demosection").data] ∧
    Docindex.search_entries
      [⟨("docs/demo.md").data, .str ("Demo").data, .str [], .str [], .int 0, .int 0,
        .list [("Demo Section").data],
        [⟨("Demo Section").data, ("demosection").data, 2⟩]⟩] (("demo").data) =
      [("Demo: Demo Section — docs/demo.md#demosection").data] := by
  constructor
  · have h := (C7_search_dedup_by_path_anchor (("docs/demo.md").data) (("Demo").data)
      (("Demo Section").data) (("demo-section").data) (("Demo Section").data)
      (("demo").data) 2 (by decide) (by decide)).1 (by decide)
    exact h.trans (by decide)
  · have h := (C7_search_dedup_by_path_anchor (("docs/demo.md").data) (("Demo").data)
      (("Demo Section").data) (("demosection").data) (("Demo Section").data)
      (("demo").data) 2 (by decide) (by decide)).2 (by decide)
    exact h.trans (by decide)

end DocSet

namespace DocSet

/-- Claim C8 --- The index builder skips a document whose front matter is
absent (no entry, no error), and otherwise builds an entry in which an absent
title defaults to the filename stem, absent doc_count and file_size default to
0, and absent key_sections defaults to the empty sequence. -/
theorem C8_build_index_skip_and_defaults :
    ∀ (stem : Str) (lines : List Str) (rest : List (Str × List Str)),
      (∀ off : Nat, Docindex.parse_front_matter lines = .ok (none, off) →
        Docindex.build_entries ((stem, lines) :: rest) = Docindex.build_entries rest) ∧
      (∀ (fm : Dict FMValue) (off : Nat),
        Docindex.parse_front_matter lines = .ok (some fm, off) → fm ≠ [] →
        Docindex.build_entries ((stem, lines) :: rest) =
          (Docindex.build_entries rest).map
            (fun es => Docindex.mkEntry stem lines fm off :: es) ∧
        (dGet fm (("title").data) = none →
          (Docindex.mkEntry stem lines fm off).title = .str stem) ∧
        (dGet fm (("doc_count").data) = none →
          (Docindex.mkEntry stem lines fm off).doc_count = .int 0) ∧
        (dGet fm (("file_size").data) = none →
          (Docindex.mkEntry stem lines fm off).file_size = .int 0) ∧
        (dGet fm (("key_sections").data) = none →
          (Docindex.mkEntry stem lines fm off).key_sections = .list [])) := by
  intro stem lines rest
  constructor
  · intro off hp
    conv_lhs => rw [Docindex.build_entries]
    rw [hp]
    show Docindex.build_entries rest = Docindex.build_entries rest
    rfl
  · intro fm off hp hne
    refine ⟨?_, ?_, ?_, ?_, ?_⟩
    · conv_lhs => rw [Docindex.build_entries]
      rw [hp]
      show (if fm = [] then Docindex.build_entries rest
        else (Docindex.build_entries rest).bind
          (fun es => Except.ok (Docindex.mkEntry stem lines fm off :: es))) = _
      rw [if_neg hne]
      cases hrest : Docindex.build_entries rest with
      | error e => rfl
      | ok es => rfl
    · intro h
      simp [Docindex.mkEntry, h]
    · intro h
      simp [Docindex.mkEntry, h]
    · intro h
      simp [Docindex.mkEntry, h]
    · intro h
      simp [Docindex.mkEntry, h]

/-- Witness for C8: a document with no front matter is skipped; a front matter
with only doc_count present leaves title, file_size and key_sections at their
defaults. -/
theorem C8_build_index_skip_and_defaults_witness :
    Docindex.build_entries [(("nofm").data, [("body text").data])] =
      Docindex.build_entries [] ∧
    (Docindex.mkEntry (("demo").data)
      ((["---", "doc_count: 3", "---"]).map (fun s => s.data))
      [(("doc_count").data, FMValue.int 3)] 3).title = .str (("demo").data) ∧
    (Docindex.mkEntry (("demo").data)
      ((["---", "doc_count: 3", "---"]).map (fun s => s.data))
      [(("doc_count").data, FMValue.int 3)] 3).file_size = .int 0 ∧
    (Docindex.mkEntry (("demo").data)
      ((["---", "doc_count: 3", "---"]).map (fun s => s.data))
      [(("doc_count").data, FMValue.int 3)] 3).key_sections = .list [] := by
  refine ⟨?_, ?_, ?_, ?_⟩
  · exact (C8_build_index_skip_and_defaults (("nofm").data) [("body text").data] []).1
      0 (by rfl)
  · exact ((C8_build_index_skip_and_defaults (("demo").data)
      ((["---", "doc_count: 3", "---"]).map (fun s => s.data)) []).2
      [(("doc_count").data, FMValue.int 3)] 3 (by rfl) (by decide)).2.1 (by rfl)
  · exact ((C8_build_index_skip_and_defaults (("demo").data)
      ((["---", "doc_count: 3", "---"]).map (fun s => s.data)) []).2
      [(("doc_count").data, FMValue.int 3)] 3 (by rfl) (by decide)).2.2.2.1 (by rfl)
  · exact ((C8_build_index_skip_and_defaults (("demo").data)
      ((["---", "doc_count: 3", "---"]).map (fun s => s.data)) []).2
      [(("doc_count").data, FMValue.int 3)] 3 (by rfl) (by decide)).2.2.2.2 (by rfl)

theorem cleanedGo_mem {sw : List Str} :
    ∀ (ts acc : List Str) (t : Str), t ∈ Sanitize.cleanedGo sw acc ts →
      t ∈ acc ∨ ¬(pyLowerStr t ∈ sw ∨ pyLowerStr t = ("overview").data) := by
  intro ts
  induction ts with
  | nil => intro acc t ht; exact Or.inl ht
  | cons a as ih =>
    intro acc t ht
    unfold Sanitize.cleanedGo at ht
    by_cases hcond : pyLowerStr a ∈ sw ∨ pyLowerStr a = ("overview").data
    · rw [if_pos hcond] at ht
      exact ih acc t ht
    · rw [if_neg hcond] at ht
      by_cases hdup : a ∈ acc
      · rw [if_pos hdup] at ht
        exact ih acc t ht
      · rw [if_neg hdup] at ht
        rcases ih (acc ++ [a]) t ht with hin | hno
        · rcases List.mem_append.mp hin with h | h
          · exact Or.inl h
          · simp only [List.mem_singleton] at h
            subst h
            exact Or.inr hcond
        · exact Or.inr hno

theorem derivedGo_mem {sw : List Str} :
    ∀ (ls acc : List Str) (t : Str), t ∈ Sanitize.derivedGo sw acc ls →
      t ∈ acc ∨ ¬(pyLowerStr t ∈ sw ∨ pyLowerStr t = ("overview").data) := by
  intro ls
  induction ls with
  | nil => intro acc t ht; exact Or.inl ht
  | cons a as ih =>
    intro acc t ht
    unfold Sanitize.derivedGo at ht
    cases hlink : Sanitize.tocLinkTitle? a with
    | none =>
      rw [hlink] at ht
      exact ih acc t ht
    | some title =>
      rw [hlink] at ht
      dsimp only at ht
      by_cases hcond : pyLowerStr title ∈ sw ∨ pyLowerStr title = ("overview").data
      · rw [if_pos hcond] at ht
        exact ih acc t ht
      · rw [if_neg hcond] at ht
        by_cases hdup : title ∈ acc
        · rw [if_pos hdup] at ht
          exact ih acc t ht
        · rw [if_neg hdup] at ht
          by_cases hlen : 10 ≤ (acc ++ [title]).length
          · rw [if_pos hlen] at ht
            rcases List.mem_append.mp ht with h | h
            · exact Or.inl h
            · simp only [List.mem_singleton] at h
              subst h
              exact Or.inr hcond
          · rw [if_neg hlen] at ht
            rcases ih (acc ++ [title]) t ht with hin | hno
            · rcases List.mem_append.mp hin with h | h
              · exact Or.inl h
              · simp only [List.mem_singleton] at h
                subst h
                exact Or.inr hcond
            · exact Or.inr hno

/-- Claim C9 --- With the stopword set the sanitizer CLI builds (lowercased
defaults plus lowercased user additions), every key section whose lowercase
form is "overview" or a member of the stopword set is removed from the output
key_sections, regardless of the section's original case. -/
theorem C9_sanitizer_stopword_removal :
    ∀ (user ks rest : List Str) (s : Str),
      (pyLowerStr s ∈ Sanitize.mkStopwords user ∨
        pyLowerStr s = ("overview").data) →
      s ∉ Sanitize.outputKeySections ks rest (Sanitize.mkStopwords user) := by
  intro user ks rest s hcond hmem
  unfold Sanitize.outputKeySections at hmem
  by_cases hc : Sanitize.cleanedGo (Sanitize.mkStopwords user) [] ks = []
  · rw [if_pos hc] at hmem
    rcases derivedGo_mem rest [] s hmem with h | h
    · simp at h
    · exact h hcond
  · rw [if_neg hc] at hmem
    rcases cleanedGo_mem ks [] s hmem with h | h
    · simp at h
    · exact h hcond

/-- Witness for C9: the default stopword "Discussion" (upper case) and
"OVERVIEW" are absent from the sanitized key sections of a concrete run. -/
theorem C9_sanitizer_stopword_removal_witness :
    (pyLowerStr (("Discussion").data) ∈ Sanitize.mkStopwords [("extra word").data] ∨
      pyLowerStr (("Discussion").data) = ("overview").data) ∧
    (("Discussion").data) ∉ Sanitize.outputKeySections
      ((["Overview", "Discussion", "Keep Me"]).map (fun s => s.data)) []
      (Sanitize.mkStopwords [("extra word").data]) ∧
    (("OVERVIEW").data) ∉ Sanitize.outputKeySections
      ((["OVERVIEW", "Keep Me"]).map (fun s => s.data)) []
      (Sanitize.mkStopwords [("extra word").data]) := by
  refine ⟨by decide, ?_, ?_⟩
  · exact C9_sanitizer_stopword_removal [("extra word").data] _ [] _ (by decide)
  · exact C9_sanitizer_stopword_removal [("extra word").data] _ [] _ (by decide)

end DocSet

namespace DocSet

theorem lineStep_none_nocolon {raw : Str} (d : Dict FMValue)
    (hcol : hasColon raw = false) :
    Docindex.lineStep d none raw = .ok (d, none) := by
  unfold Docindex.lineStep
  cases hsw : pyStartsWith raw (("  - ").data) with
  | false =>
    dsimp only
    rw [if_pos hcol]
  | true =>
    dsimp only
    rw [if_pos hcol]

theorem goIdx_empty_mid :
    ∀ (mid : List Str), (∀ l ∈ mid, hasColon l = false ∧ pyStrip l ≠ ("---").data) →
      ∀ (idx : Nat) (body : List Str),
        Docindex.goIdx [] none idx (mid ++ ("---").data :: body) =
          .ok ([], idx + (mid.length + 1)) := by
  intro mid
  induction mid with
  | nil =>
    intro _ idx body
    show Docindex.goIdx [] none idx (("---").data :: body) = _
    conv_lhs => rw [Docindex.goIdx]
    rw [if_pos (by decide)]
    rfl
  | cons a mid' ih =>
    intro h idx body
    have ha := h a (List.mem_cons_self _ _)
    have hmid' : ∀ l ∈ mid', hasColon l = false ∧ pyStrip l ≠ ("---").data :=
      fun l hl => h l (List.mem_cons_of_mem _ hl)
    show Docindex.goIdx [] none idx (a :: (mid' ++ ("---").data :: body)) = _
    conv_lhs => rw [Docindex.goIdx]
    rw [if_neg ha.2, lineStep_none_nocolon [] ha.1]
    show Docindex.goIdx [] none (idx + 1) (mid' ++ ("---").data :: body) = _
    have harith : idx + 1 + (mid'.length + 1) = idx + ((a :: mid').length + 1) := by
      simp only [List.length_cons]
      omega
    rw [ih hmid' (idx + 1) body, harith]

theorem metaFlat_none_nocolon {raw stripped : Str} (d0 d : Dict FMValue)
    (raws : List Str) (p0 n0 : Option Str) (indent : Nat)
    (hcol : hasColon raw = false) :
    Docmeta.metaFlat ⟨d0, raws, p0, n0, none⟩ d raw stripped indent =
      .ok ⟨d, raws, p0, none, none⟩ := by
  unfold Docmeta.metaFlat
  cases hsw : pyStartsWith stripped (("- ").data) with
  | false =>
    cases hsw2 : pyStartsWith stripped (("  - ").data) with
    | false => simp only [hcol, reduceIte]
    | true => simp only [hcol, reduceIte]
  | true =>
    cases hsw2 : pyStartsWith stripped (("  - ").data) with
    | false => simp only [hcol, reduceIte]
    | true => simp only [hcol, reduceIte]

theorem goStream_empty_mid :
    ∀ (mid : List Str), (∀ l ∈ mid, hasColon l = false ∧ pyStrip l ≠ ("---").data) →
      ∀ (raws0 body : List Str),
        Docmeta.goStream ⟨[], raws0, none, none, none⟩ (mid ++ ("---").data :: body) =
          .ok ([], raws0 ++ mid, [], body) := by
  intro mid
  induction mid with
  | nil =>
    intro _ raws0 body
    show Docmeta.goStream ⟨[], raws0, none, none, none⟩ (("---").data :: body) = _
    conv_lhs => rw [Docmeta.goStream]
    rw [if_pos (by decide)]
    simp
  | cons a mid' ih =>
    intro h raws0 body
    have ha := h a (List.mem_cons_self _ _)
    have hmid' : ∀ l ∈ mid', hasColon l = false ∧ pyStrip l ≠ ("---").data :=
      fun l hl => h l (List.mem_cons_of_mem _ hl)
    show Docmeta.goStream ⟨[], raws0, none, none, none⟩
      (a :: (mid' ++ ("---").data :: body)) = _
    conv_lhs => rw [Docmeta.goStream]
    rw [if_neg ha.2]
    dsimp only
    rw [metaFlat_none_nocolon [] [] (raws0 ++ [a]) none none _ ha.1]
    show Docmeta.goStream ⟨[], raws0 ++ [a], none, none, none⟩
      (mid' ++ ("---").data :: body) = _
    rw [ih hmid' (raws0 ++ [a]) body]
    simp

/-- Claim C10 --- A document whose front-matter block is present but contains
no key-value lines parses to an empty mapping and is then treated exactly like
a document with no front matter: build_index omits it from the index and
peek_markdown reports has_front_matter as false. -/
theorem C10_empty_header_like_absent :
    ∀ (stem : Str) (mid body : List Str) (rest : List (Str × List Str))
      (inc : Bool) (maxL : Int),
      (∀ l ∈ mid, hasColon l = false ∧ pyStrip l ≠ ("---").data) →
      Docindex.parse_front_matter (("---").data :: (mid ++ ("---").data :: body)) =
        .ok (some [], mid.length + 2) ∧
      Docindex.build_entries
        ((stem, ("---").data :: (mid ++ ("---").data :: body)) :: rest) =
        Docindex.build_entries rest ∧
      (Docmeta.peek_markdown (("---").data :: (mid ++ ("---").data :: body))
          inc maxL).map (fun r => r.has_front_matter) = .ok false := by
  intro stem mid body rest inc maxL h
  have hparse : Docindex.parse_front_matter
      (("---").data :: (mid ++ ("---").data :: body)) = .ok (some [], mid.length + 2) := by
    show (if pyStrip (("---").data) = ("---").data then
        (Docindex.goIdx [] none 1 (mid ++ ("---").data :: body)).map
          (fun p => (some p.1, p.2))
      else .ok (none, 0)) = _
    rw [if_pos (by decide), goIdx_empty_mid mid h 1 body]
    show Except.ok (some ([] : Dict FMValue), 1 + (mid.length + 1)) = _
    congr 2
    omega
  refine ⟨hparse, ?_, ?_⟩
  · conv_lhs => rw [Docindex.build_entries]
    rw [hparse]
    show (if ([] : Dict FMValue) = [] then Docindex.build_entries rest
      else (Docindex.build_entries rest).bind
        (fun es => Except.ok (Docindex.mkEntry stem
          (("---").data :: (mid ++ ("---").data :: body)) [] (mid.length + 2) :: es))) = _
    rw [if_pos rfl]
  · have hstream : Docmeta.parse_front_matter_stream
        (("---").data :: (mid ++ ("---").data :: body)) = .ok ([], mid, [], body) := by
      show (if pyStrip (("---").data) = ("---").data then
          Docmeta.goStream ⟨[], [], none, none, none⟩ (mid ++ ("---").data :: body)
        else .ok ([], [], [("---").data], mid ++ ("---").data :: body)) = _
      rw [if_pos (by decide), goStream_empty_mid mid h [] body]
      simp
    unfold Docmeta.peek_markdown
    rw [hstream]
    rfl

/-- Witness for C10: a concrete document with a syntactically present but
empty header block is skipped by the builder and reported as having no front
matter by the peeker. -/
theorem C10_empty_header_like_absent_witness :
    Docindex.parse_front_matter ((["---", "junk line", "---", "## Body"]).map
      (fun s => s.data)) = .ok (some [], 3) ∧
    Docindex.build_entries
      [(("empty").data, (["---", "junk line", "---", "## Body"]).map (fun s => s.data))] =
      Docindex.build_entries [] ∧
    (Docmeta.peek_markdown ((["---", "junk line", "---", "## Body"]).map
        (fun s => s.data)) true 800).map (fun r => r.has_front_matter) = .ok false := by
  have h := C10_empty_header_like_absent (("empty").data) [("junk line").data]
    [("## Body").data] [] true 800 (by decide)
  exact h

end DocSet

namespace DocSet

/-- Counterexample to C3 as stated: a well-formed header whose key_sections
list has 21 entries does not round-trip --- build_front_matter truncates the
serialized list to its first 20 entries, so re-parsing yields 20 sections. -/
theorem C3_round_trip_counterexample :
    (Sanitize.parse_front_matter
      (Sanitize.build_front_matter [] ((["s01", "s02", "s03", "s04", "s05", "s06", "s07", "s08", "s09", "s10", "s11", "s12", "s13", "s14", "s15", "s16", "s17", "s18", "s19", "s20", "s21"]).map
        (fun s => s.data)) 2 [] (("now").data))).map
      (fun p => dGet p.1 (("key_sections").data)) =
      .ok (some (.list ((["s01", "s02", "s03", "s04", "s05", "s06", "s07", "s08", "s09", "s10", "s11", "s12", "s13", "s14", "s15", "s16", "s17", "s18", "s19", "s20"]).map (fun s => s.data)))) ∧
    (["s01", "s02", "s03", "s04", "s05", "s06", "s07", "s08", "s09", "s10", "s11", "s12", "s13", "s14", "s15", "s16", "s17", "s18", "s19", "s20"]).map (fun s => s.data) ≠
      (["s01", "s02", "s03", "s04", "s05", "s06", "s07", "s08", "s09", "s10", "s11", "s12", "s13", "s14", "s15", "s16", "s17", "s18", "s19", "s20", "s21"]).map (fun s => s.data) := by
  constructor
  · rfl
  · decide

end DocSet

namespace DocSet

theorem dGet_dSet_self {α : Type} (d : Dict α) (k : Str) (v : α) :
    dGet (dSet d k v) k = some v := by
  induction d with
  | nil => simp [dGet, dSet]
  | cons kv rest ih =>
    obtain ⟨k1, v1⟩ := kv
    by_cases h : k1 = k
    · simp [dSet, dGet, h]
    · simp [dSet, dGet, h, ih]

theorem dGet_dSet_ne {α : Type} (d : Dict α) {k' k : Str} (v : α) (h : k' ≠ k) :
    dGet (dSet d k' v) k = dGet d k := by
  induction d with
  | nil => simp [dGet, dSet, h]
  | cons kv rest ih =>
    obtain ⟨k1, v1⟩ := kv
    by_cases hk : k1 = k'
    · subst hk
      simp [dSet, dGet, h]
    · simp only [dSet, if_neg hk]
      by_cases hk2 : k1 = k
      · simp [dGet, hk2]
      · simp [dGet, hk2, ih]

theorem dSet_dSet {α : Type} (d : Dict α) (k : Str) (v w : α) :
    dSet (dSet d k v) k w = dSet d k w := by
  induction d with
  | nil => simp [dSet]
  | cons kv rest ih =>
    obtain ⟨k1, v1⟩ := kv
    by_cases h : k1 = k
    · simp [dSet, h]
    · simp [dSet, h, ih]

theorem dSet_eq_of_dGet {α : Type} {d : Dict α} {k : Str} {v : α}
    (h : dGet d k = some v) : dSet d k v = d := by
  induction d with
  | nil => simp [dGet] at h
  | cons kv rest ih =>
    obtain ⟨k1, v1⟩ := kv
    by_cases hk : k1 = k
    · unfold dGet at h
      rw [if_pos hk] at h
      injection h with h
      simp [dSet, hk, h]
    · unfold dGet at h
      rw [if_neg hk] at h
      simp [dSet, hk, ih h]

theorem dropRightWhile_append (p : Char → Bool) :
    ∀ (a w : Str), dropRightWhile p (a ++ w) =
      if dropRightWhile p w = [] then dropRightWhile p a else a ++ dropRightWhile p w := by
  intro a
  induction a with
  | nil =>
    intro w
    by_cases h : dropRightWhile p w = []
    · rw [List.nil_append, if_pos h, h]
      rfl
    · rw [List.nil_append, if_neg h, List.nil_append]
  | cons c a' ih =>
    intro w
    rw [List.cons_append]
    by_cases h : dropRightWhile p w = []
    · rw [if_pos h]
      by_cases hr : dropRightWhile p a' = []
      · have hrw : dropRightWhile p (a' ++ w) = [] := by
          rw [ih w, if_pos h]
          exact hr
        by_cases hp : p c = true
        · simp [dropRightWhile, hrw, hr, hp]
        · simp [dropRightWhile, hrw, hr, hp]
      · have hrw : dropRightWhile p (a' ++ w) = dropRightWhile p a' := by
          rw [ih w, if_pos h]
        simp [dropRightWhile, hrw, hr]
    · rw [if_neg h]
      have hrw : dropRightWhile p (a' ++ w) = a' ++ dropRightWhile p w := by
        rw [ih w, if_neg h]
      have hne : a' ++ dropRightWhile p w ≠ [] := by
        simp [h]
      simp [dropRightWhile, hrw, hne]

theorem pyStrip_cons_space {c : Char} (x : Str) (h : pyIsSpace c = true) :
    pyStrip (c :: x) = pyStrip x := by
  unfold pyStrip pyLstrip
  rw [List.dropWhile_cons, if_pos h]

theorem all_of_dropRightWhile_nil {p : Char → Bool} :
    ∀ (w : Str), dropRightWhile p w = [] → ∀ c ∈ w, p c = true := by
  intro w
  induction w with
  | nil => intro _ c hc; simp at hc
  | cons a as ih =>
    intro h c hc
    unfold dropRightWhile at h
    by_cases hr : dropRightWhile p as = []
    · rw [if_pos hr] at h
      by_cases hp : p a = true
      · rcases List.mem_cons.mp hc with hh | hh
        · subst hh; exact hp
        · exact ih hr c hh
      · rw [if_neg hp] at h
        simp at h
    · rw [if_neg hr] at h
      simp at h

theorem splitColon_append :
    ∀ (a b : Str), ':' ∉ a → splitColon (a ++ ':' :: b) = (a, b) := by
  intro a
  induction a with
  | nil => intro b _; simp [splitColon]
  | cons c a' ih =>
    intro b h
    have hc : c ≠ ':' := fun hh => h (hh ▸ List.mem_cons_self c a')
    have ha' : ':' ∉ a' := fun hh => h (List.mem_cons_of_mem c hh)
    rw [List.cons_append]
    unfold splitColon
    rw [if_neg hc, ih b ha']

/-- The stripped head of a line whose first character is not whitespace. -/
theorem pyStrip_head_cons {c : Char} (x : Str) (h : pyIsSpace c = false) :
    (pyStrip (c :: x)).head? = some c := by
  unfold pyStrip pyLstrip
  rw [List.dropWhile_cons, if_neg (by simp [h])]
  exact head_dropRightWhile_nonspace x h

/-- A section string that round-trips through the emitted two-space item line:
non-empty with no trailing whitespace. -/
def goodSection (s : Str) : Prop := s ≠ [] ∧ dropRightWhile pyIsSpace s = s

instance (s : Str) : Decidable (goodSection s) := by
  unfold goodSection
  infer_instance

/-- The stripped form of the emitted item line for a good section. -/
theorem strip_item_line {s : Str} (h : goodSection s) :
    pyStrip (("  - ").data ++ s) = ("- ").data ++ s := by
  show pyStrip (' ' :: ' ' :: '-' :: ' ' :: s) = _
  rw [pyStrip_cons_space _ (by decide), pyStrip_cons_space _ (by decide)]
  unfold pyStrip pyLstrip
  rw [List.dropWhile_cons, if_neg (by decide)]
  show dropRightWhile pyIsSpace (('-' :: ' ' :: []) ++ s) = _
  rw [dropRightWhile_append pyIsSpace _ s, h.2, if_neg h.1]

end DocSet

namespace DocSet

/-- Lines whose stripped form triggers neither of the sanitizer parser's
list-item branches. -/
def nodashLine (l : Str) : Prop :=
  pyStartsWith (pyStrip l) (("- ").data) = false ∧
  pyStartsWith (pyStrip l) (("  - ").data) = false

theorem nodash_of_head {l : Str} {c0 : Char} (hl : (pyStrip l).head? = some c0)
    (hs : pyIsSpace c0 = false) (hd : c0 ≠ '-') :
    nodashLine l ∧ pyStrip l ≠ ("---").data := by
  refine ⟨⟨?_, ?_⟩, ?_⟩
  · by_contra hc
    simp only [Bool.not_eq_false] at hc
    have h2 := pyStartsWith_head hc
    rw [hl] at h2
    injection h2 with h2
    exact hd h2
  · by_contra hc
    simp only [Bool.not_eq_false] at hc
    have h2 := pyStartsWith_head hc
    rw [hl] at h2
    injection h2 with h2
    rw [h2] at hs
    exact absurd hs (by decide)
  · intro hc
    rw [hc] at hl
    simp only [List.head?_cons, Option.some.injEq] at hl
    exact hd hl.symm

theorem hasColon_iff (s : Str) : hasColon s = true ↔ ':' ∈ s := by
  unfold hasColon
  exact decide_eq_true_iff

theorem splitColon_recon :
    ∀ (raw : Str), ':' ∈ raw →
      raw = (splitColon raw).1 ++ ':' :: (splitColon raw).2 ∧
      ':' ∉ (splitColon raw).1 := by
  intro raw
  induction raw with
  | nil => intro h; simp at h
  | cons c rest ih =>
    intro h
    by_cases hc : c = ':'
    · subst hc
      simp [splitColon]
    · have hmem : ':' ∈ rest := by
        rcases List.mem_cons.mp h with hh | hh
        · exact absurd hh.symm hc
        · exact hh
      obtain ⟨h1, h2⟩ := ih hmem
      unfold splitColon
      rw [if_neg hc]
      constructor
      · show c :: rest = c :: ((splitColon rest).1 ++ ':' :: (splitColon rest).2)
        rw [← h1]
      · intro hmem2
        rcases List.mem_cons.mp hmem2 with hh | hh
        · exact hc hh.symm
        · exact h2 hh

theorem foldFM_cons_skip {raw : Str} (hnd : nodashLine raw)
    (hcol : hasColon raw = false) :
    ∀ (d : Dict Sanitize.SVal) (k : Option Str) (rest : List Str),
      Sanitize.foldFM d k (raw :: rest) = Sanitize.foldFM d k rest := by
  intro d k rest
  show (match k, pyStartsWith (pyStrip raw) (("- ").data) && keyTruthy k with
    | some key, true =>
      (match Sanitize.appendItemS d key ((pyStrip raw).drop 2) with
       | Except.error e => Except.error e
       | Except.ok d' => Sanitize.foldFM d' (some key) rest)
    | _, _ =>
      match k, pyStartsWith (pyStrip raw) (("  - ").data) && keyTruthy k with
      | some key, true =>
        (match Sanitize.appendItemS d key ((pyStrip raw).drop 2) with
         | Except.error e => Except.error e
         | Except.ok d' => Sanitize.foldFM d' (some key) rest)
      | _, _ =>
        if hasColon raw = true then
          Sanitize.foldFM
            (dSet d (pyStrip (splitColon raw).1)
              (if pyStrip (splitColon raw).2 = [] then Sanitize.SVal.list []
               else Sanitize.SVal.str (pyStrip (splitColon raw).2)))
            (some (pyStrip (splitColon raw).1)) rest
        else Sanitize.foldFM d k rest) = Sanitize.foldFM d k rest
  rw [hnd.1, hnd.2]
  cases k with
  | none =>
    rw [hcol]
    exact if_neg (by simp)
  | some key =>
    rw [hcol]
    exact if_neg (by simp)

theorem foldFM_cons_colon {raw a v : Str} (hsplit : raw = a ++ ':' :: v)
    (hnc : ':' ∉ a) (hnd : nodashLine raw) :
    ∀ (d : Dict Sanitize.SVal) (k : Option Str) (rest : List Str),
      Sanitize.foldFM d k (raw :: rest) =
        Sanitize.foldFM
          (dSet d (pyStrip a)
            (if pyStrip v = [] then Sanitize.SVal.list [] else Sanitize.SVal.str (pyStrip v)))
          (some (pyStrip a)) rest := by
  intro d k rest
  have hcol : hasColon raw = true := by
    rw [hasColon_iff, hsplit]
    exact List.mem_append_right a (List.mem_cons_self ':' v)
  have hsc : splitColon raw = (a, v) := by
    rw [hsplit]
    exact splitColon_append a v hnc
  show (match k, pyStartsWith (pyStrip raw) (("- ").data) && keyTruthy k with
    | some key, true =>
      (match Sanitize.appendItemS d key ((pyStrip raw).drop 2) with
       | Except.error e => Except.error e
       | Except.ok d' => Sanitize.foldFM d' (some key) rest)
    | _, _ =>
      match k, pyStartsWith (pyStrip raw) (("  - ").data) && keyTruthy k with
      | some key, true =>
        (match Sanitize.appendItemS d key ((pyStrip raw).drop 2) with
         | Except.error e => Except.error e
         | Except.ok d' => Sanitize.foldFM d' (some key) rest)
      | _, _ =>
        if hasColon raw = true then
          Sanitize.foldFM
            (dSet d (pyStrip (splitColon raw).1)
              (if pyStrip (splitColon raw).2 = [] then Sanitize.SVal.list []
               else Sanitize.SVal.str (pyStrip (splitColon raw).2)))
            (some (pyStrip (splitColon raw).1)) rest
        else Sanitize.foldFM d k rest) = _
  rw [hnd.1, hnd.2]
  simp only [Bool.false_and]
  cases k with
  | none =>
    rw [if_pos hcol, hsc]
  | some key =>
    rw [if_pos hcol, hsc]

theorem foldFM_cons_item {line x : Str}
    (hstrip : pyStrip line = ("- ").data ++ x) :
    ∀ (d : Dict Sanitize.SVal) (key : Str) (xs : List Str) (rest : List Str),
      key ≠ [] →
      dGet d key = some (Sanitize.SVal.list xs) →
      Sanitize.foldFM d (some key) (line :: rest) =
        Sanitize.foldFM (dSet d key (Sanitize.SVal.list (xs ++ [x]))) (some key) rest := by
  intro d key xs rest hk hget
  have hsw : pyStartsWith (pyStrip line) (("- ").data) = true := by
    rw [hstrip]
    exact pyStartsWith_append _ _
  have hkt : keyTruthy (some key) = true := by
    cases key with
    | nil => exact absurd rfl hk
    | cons c cs => rfl
  have hdrop : (pyStrip line).drop 2 = x := by
    rw [hstrip]
    have h2 : (("- ").data).length = 2 := rfl
    rw [← h2]
    exact List.drop_left _ _
  show (match (some key : Option Str),
      pyStartsWith (pyStrip line) (("- ").data) && keyTruthy (some key) with
    | some key, true =>
      (match Sanitize.appendItemS d key ((pyStrip line).drop 2) with
       | Except.error e => Except.error e
       | Except.ok d' => Sanitize.foldFM d' (some key) rest)
    | _, _ =>
      match (some key : Option Str),
          pyStartsWith (pyStrip line) (("  - ").data) && keyTruthy (some key) with
      | some key, true =>
        (match Sanitize.appendItemS d key ((pyStrip line).drop 2) with
         | Except.error e => Except.error e
         | Except.ok d' => Sanitize.foldFM d' (some key) rest)
      | _, _ =>
        if hasColon line = true then
          Sanitize.foldFM
            (dSet d (pyStrip (splitColon line).1)
              (if pyStrip (splitColon line).2 = [] then Sanitize.SVal.list []
               else Sanitize.SVal.str (pyStrip (splitColon line).2)))
            (some (pyStrip (splitColon line).1)) rest
        else Sanitize.foldFM d (some key) rest) = _
  rw [hsw, hkt]
  show (match Sanitize.appendItemS d key ((pyStrip line).drop 2) with
    | Except.error e => Except.error e
    | Except.ok d' => Sanitize.foldFM d' (some key) rest) = _
  rw [hdrop]
  unfold Sanitize.appendItemS
  rw [hget]

end DocSet

namespace DocSet

theorem foldFM_harmless_block :
    ∀ (L : List Str), (∀ l ∈ L, nodashLine l) →
      ∀ (d : Dict Sanitize.SVal) (k : Option Str) (rest : List Str),
        ∃ d' k', Sanitize.foldFM d k (L ++ rest) = Sanitize.foldFM d' k' rest := by
  intro L
  induction L with
  | nil => intro _ d k rest; exact ⟨d, k, rfl⟩
  | cons raw L' ih =>
    intro h d k rest
    have hraw := h raw (List.mem_cons_self _ _)
    have hrest : ∀ l ∈ L', nodashLine l := fun l hl => h l (List.mem_cons_of_mem _ hl)
    rw [List.cons_append]
    by_cases hcol : hasColon raw = true
    · obtain ⟨h1, h2⟩ := splitColon_recon raw ((hasColon_iff raw).mp hcol)
      rw [foldFM_cons_colon h1 h2 hraw d k (L' ++ rest)]
      exact ih hrest _ _ rest
    · have hcol' : hasColon raw = false := by
        cases hc2 : hasColon raw
        · rfl
        · exact absurd hc2 hcol
      rw [foldFM_cons_skip hraw hcol' d k (L' ++ rest)]
      exact ih hrest d k rest

theorem foldFM_items :
    ∀ (sections : List Str), (∀ s ∈ sections, goodSection s) →
      ∀ (d : Dict Sanitize.SVal) (key : Str) (xs : List Str) (rest : List Str),
        key ≠ [] →
        dGet d key = some (Sanitize.SVal.list xs) →
        Sanitize.foldFM d (some key)
          ((sections.map (fun s => ("  - ").data ++ s)) ++ rest) =
          Sanitize.foldFM (dSet d key (Sanitize.SVal.list (xs ++ sections)))
            (some key) rest := by
  intro sections
  induction sections with
  | nil =>
    intro _ d key xs rest _ hget
    rw [List.map_nil, List.nil_append, List.append_nil, dSet_eq_of_dGet hget]
  | cons s ss ih =>
    intro h d key xs rest hk hget
    have hs := h s (List.mem_cons_self _ _)
    have hss : ∀ t ∈ ss, goodSection t := fun t ht => h t (List.mem_cons_of_mem _ ht)
    rw [List.map_cons, List.cons_append]
    rw [foldFM_cons_item (strip_item_line hs) d key xs _ hk hget]
    rw [ih hss _ key (xs ++ [s]) rest hk (dGet_dSet_self d key _)]
    rw [dSet_dSet]
    congr 2
    simp

/-- A stopword line "    - w": its stripped form, split on whether w is
whitespace-only. -/
theorem strip_stop_line (w : Str) :
    (dropRightWhile pyIsSpace w = [] ∧ pyStrip (("    - ").data ++ w) = [('-')]) ∨
    (dropRightWhile pyIsSpace w ≠ [] ∧
      pyStrip (("    - ").data ++ w) = ("- ").data ++ dropRightWhile pyIsSpace w) := by
  by_cases h : dropRightWhile pyIsSpace w = []
  · left
    refine ⟨h, ?_⟩
    show pyStrip (' ' :: ' ' :: ' ' :: ' ' :: '-' :: ' ' :: w) = _
    rw [pyStrip_cons_space _ (by decide), pyStrip_cons_space _ (by decide),
      pyStrip_cons_space _ (by decide), pyStrip_cons_space _ (by decide)]
    unfold pyStrip pyLstrip
    rw [List.dropWhile_cons, if_neg (by decide)]
    show dropRightWhile pyIsSpace (('-' :: ' ' :: []) ++ w) = _
    rw [dropRightWhile_append pyIsSpace _ w, if_pos h]
    rfl
  · right
    refine ⟨h, ?_⟩
    show pyStrip (' ' :: ' ' :: ' ' :: ' ' :: '-' :: ' ' :: w) = _
    rw [pyStrip_cons_space _ (by decide), pyStrip_cons_space _ (by decide),
      pyStrip_cons_space _ (by decide), pyStrip_cons_space _ (by decide)]
    unfold pyStrip pyLstrip
    rw [List.dropWhile_cons, if_neg (by decide)]
    show dropRightWhile pyIsSpace (('-' :: ' ' :: []) ++ w) = _
    rw [dropRightWhile_append pyIsSpace _ w, if_neg h]

theorem foldFM_stop :
    ∀ (ws : List Str) (d : Dict Sanitize.SVal) (key : Str) (xs : List Str)
      (rest : List Str),
      key ≠ [] →
      dGet d key = some (Sanitize.SVal.list xs) →
      ∃ ys, Sanitize.foldFM d (some key)
          ((ws.map (fun w => ("    - ").data ++ w)) ++ rest) =
          Sanitize.foldFM (dSet d key (Sanitize.SVal.list ys)) (some key) rest := by
  intro ws
  induction ws with
  | nil =>
    intro d key xs rest _ hget
    refine ⟨xs, ?_⟩
    rw [List.map_nil, List.nil_append, dSet_eq_of_dGet hget]
  | cons w ws' ih =>
    intro d key xs rest hk hget
    rw [List.map_cons, List.cons_append]
    rcases strip_stop_line w with ⟨hnil, hstrip⟩ | ⟨hne, hstrip⟩
    · -- whitespace-only stopword: the line is skipped entirely
      have hnd : nodashLine (("    - ").data ++ w) := by
        constructor
        · rw [hstrip]; rfl
        · rw [hstrip]; rfl
      have hcol : hasColon (("    - ").data ++ w) = false := by
        by_contra hc
        simp only [Bool.not_eq_false] at hc
        have hmem := (hasColon_iff _).mp hc
        rcases List.mem_append.mp hmem with hh | hh
        · simp at hh
        · have := all_of_dropRightWhile_nil w hnil ':' hh
          simp [pyIsSpace, wsChars] at this
      rw [foldFM_cons_skip hnd hcol d (some key) _]
      exact ih d key xs rest hk hget
    · rw [foldFM_cons_item hstrip d key xs _ hk hget]
      obtain ⟨ys, hys⟩ := ih (dSet d key (Sanitize.SVal.list (xs ++ [dropRightWhile pyIsSpace w])))
        key (xs ++ [dropRightWhile pyIsSpace w]) rest hk (dGet_dSet_self d key _)
      refine ⟨ys, ?_⟩
      rw [hys, dSet_dSet]

theorem fmSplit_of_clean :
    ∀ (L rest : List Str), (∀ l ∈ L, pyStrip l ≠ ("---").data) →
      Sanitize.fmSplit (L ++ ("---").data :: rest) = (L, rest) := by
  intro L
  induction L with
  | nil =>
    intro rest _
    rw [List.nil_append]
    unfold Sanitize.fmSplit
    rw [if_pos (by decide)]
  | cons l L' ih =>
    intro rest h
    rw [List.cons_append]
    unfold Sanitize.fmSplit
    rw [if_neg (h l (List.mem_cons_self _ _)), ih rest
      (fun x hx => h x (List.mem_cons_of_mem _ hx))]

theorem emit_mem {key : Str} {v : Option Sanitize.SVal} {l : Str}
    (h : l ∈ Sanitize.emit key v) : ∃ x, l = key ++ (": ").data ++ x := by
  match v with
  | none => simp [Sanitize.emit] at h
  | some (.str s) =>
    by_cases hs : s = []
    · simp [Sanitize.emit, hs] at h
    · simp only [Sanitize.emit, if_neg hs, List.mem_singleton] at h
      exact ⟨s, h⟩
  | some (.list xs) =>
    simp only [Sanitize.emit, List.mem_singleton] at h
    exact ⟨Docindex.pyReprList xs, h⟩

/-- An item-shaped stripped line is never the delimiter. -/
theorem dash_space_ne_delim (x : Str) : ("- ").data ++ x ≠ ("---").data := by
  intro h
  have : (' ' :: x) = ('-' :: '-' :: []) := by
    have h2 := h
    injection h2 with _ h2
  injection this with hsp
  exact absurd hsp (by decide)

end DocSet

namespace DocSet

/-- Every line emitted for a key starting with a non-space, non-dash character
triggers no list-item branch and is never the closing delimiter. -/
theorem emit_line_good {c : Char} {kt : Str} {v : Option Sanitize.SVal}
    (hs : pyIsSpace c = false) (hd : c ≠ '-') :
    ∀ l ∈ Sanitize.emit (c :: kt) v, nodashLine l ∧ pyStrip l ≠ ("---").data := by
  intro l hl
  obtain ⟨x, hx⟩ := emit_mem hl
  subst hx
  have hh : (pyStrip ((c :: kt) ++ (": ").data ++ x)).head? = some c := by
    show (pyStrip (c :: ((kt ++ (": ").data) ++ x))).head? = some c
    exact pyStrip_head_cons _ hs
  exact nodash_of_head hh hs hd

/-- The generated_at line of build_front_matter is harmless for the reparse. -/
theorem gen_line_props (g : Str) :
    nodashLine (("  generated_at: ").data ++ g) ∧
      pyStrip (("  generated_at: ").data ++ g) ≠ ("---").data := by
  have hh : (pyStrip (("  generated_at: ").data ++ g)).head? = some ('g') := by
    show (pyStrip (' ' :: (' ' :: ('g' :: ((("enerated_at: ").data) ++ g))))).head? =
      some ('g')
    rw [pyStrip_cons_space _ (by decide), pyStrip_cons_space _ (by decide)]
    exact pyStrip_head_cons _ (by decide)
  exact nodash_of_head hh (by decide) (by decide)

/-- The toc_depth line of build_front_matter is harmless for the reparse. -/
theorem dep_line_props (g : Str) :
    nodashLine (("  toc_depth: ").data ++ g) ∧
      pyStrip (("  toc_depth: ").data ++ g) ≠ ("---").data := by
  have hh : (pyStrip (("  toc_depth: ").data ++ g)).head? = some ('t') := by
    show (pyStrip (' ' :: (' ' :: ('t' :: ((("oc_depth: ").data) ++ g))))).head? =
      some ('t')
    rw [pyStrip_cons_space _ (by decide), pyStrip_cons_space _ (by decide)]
    exact pyStrip_head_cons _ (by decide)
  exact nodash_of_head hh (by decide) (by decide)

/-- Reading parse_front_matter off a delimiter-headed document whose header
split and fold are known. -/
theorem parse_fm_of_fold (r L t : List Str) (d : Dict Sanitize.SVal)
    (k : Option Str) (hs : Sanitize.fmSplit r = (L, t))
    (hf : Sanitize.foldFM [] none L = Except.ok (d, k)) :
    Sanitize.parse_front_matter (("---").data :: r) = Except.ok (d, t) := by
  show (if pyStrip (("---").data) = ("---").data then
      (match Sanitize.foldFM [] none (Sanitize.fmSplit r).1 with
        | Except.error e => Except.error e
        | Except.ok (d0, _) => Except.ok (d0, (Sanitize.fmSplit r).2))
    else Except.ok ([], ("---").data :: r)) = Except.ok (d, t)
  rw [if_pos (show pyStrip (("---").data) = ("---").data by decide), hs]
  show (match Sanitize.foldFM [] none L with
      | Except.error e => Except.error e
      | Except.ok (d0, _) => Except.ok (d0, t)) = Except.ok (d, t)
  rw [hf]

/-- Folding the sanitizer trailer block (sanitizer:, generated_at, toc_depth,
stopwords and the stopword items) never touches the key_sections entry. -/
theorem fold_tail (gval dval : Str) (sws : List Str)
    (d : Dict Sanitize.SVal) (key : Str) :
    ∃ d2, Sanitize.foldFM d (some key)
        (("sanitizer:").data ::
          ((("  generated_at: ").data ++ gval) ::
            ((("  toc_depth: ").data ++ dval) ::
              (("  stopwords:").data ::
                (sws.map (fun w => ("    - ").data ++ w)))))) =
        Except.ok (d2, some (("stopwords").data)) ∧
      dGet d2 (("key_sections").data) = dGet d (("key_sections").data) := by
  have hsanC := foldFM_cons_colon
    (show ("sanitizer:").data = ("sanitizer").data ++ (':') :: [] from rfl)
    (by decide) ⟨rfl, rfl⟩
  rw [show pyStrip (("sanitizer").data) = ("sanitizer").data from rfl,
      if_pos (show pyStrip ([] : Str) = [] from rfl)] at hsanC
  have hgenC := foldFM_cons_colon
    (show (("  generated_at: ").data ++ gval) =
        ("  generated_at").data ++ (':') :: (' ' :: gval) from rfl)
    (by decide) (gen_line_props gval).1
  rw [show pyStrip (("  generated_at").data) = ("generated_at").data from rfl] at hgenC
  have hdepC := foldFM_cons_colon
    (show (("  toc_depth: ").data ++ dval) =
        ("  toc_depth").data ++ (':') :: (' ' :: dval) from rfl)
    (by decide) (dep_line_props dval).1
  rw [show pyStrip (("  toc_depth").data) = ("toc_depth").data from rfl] at hdepC
  have hswC := foldFM_cons_colon
    (show ("  stopwords:").data = ("  stopwords").data ++ (':') :: [] from rfl)
    (by decide) ⟨rfl, rfl⟩
  rw [show pyStrip (("  stopwords").data) = ("stopwords").data from rfl,
      if_pos (show pyStrip ([] : Str) = [] from rfl)] at hswC
  obtain ⟨ys, hys⟩ := foldFM_stop sws
    (dSet (dSet (dSet (dSet d (("sanitizer").data) (Sanitize.SVal.list []))
          (("generated_at").data)
          (if pyStrip (' ' :: gval) = [] then Sanitize.SVal.list []
           else Sanitize.SVal.str (pyStrip (' ' :: gval))))
        (("toc_depth").data)
        (if pyStrip (' ' :: dval) = [] then Sanitize.SVal.list []
         else Sanitize.SVal.str (pyStrip (' ' :: dval))))
      (("stopwords").data) (Sanitize.SVal.list []))
    (("stopwords").data) [] [] (by decide) (dGet_dSet_self _ _ _)
  rw [List.append_nil] at hys
  refine ⟨dSet (dSet (dSet (dSet (dSet d (("sanitizer").data) (Sanitize.SVal.list []))
          (("generated_at").data)
          (if pyStrip (' ' :: gval) = [] then Sanitize.SVal.list []
           else Sanitize.SVal.str (pyStrip (' ' :: gval))))
        (("toc_depth").data)
        (if pyStrip (' ' :: dval) = [] then Sanitize.SVal.list []
         else Sanitize.SVal.str (pyStrip (' ' :: dval))))
      (("stopwords").data) (Sanitize.SVal.list []))
    (("stopwords").data) (Sanitize.SVal.list ys), ?_, ?_⟩
  · rw [hsanC, hgenC, hdepC, hswC, hys]
    rfl
  · rw [dGet_dSet_ne _ _ (show ("stopwords").data ≠ ("key_sections").data by decide),
        dGet_dSet_ne _ _ (show ("stopwords").data ≠ ("key_sections").data by decide),
        dGet_dSet_ne _ _ (show ("toc_depth").data ≠ ("key_sections").data by decide),
        dGet_dSet_ne _ _ (show ("generated_at").data ≠ ("key_sections").data by decide),
        dGet_dSet_ne _ _ (show ("sanitizer").data ≠ ("key_sections").data by decide)]

end DocSet

namespace DocSet

/-- Reparsing a serialized header: any block of harmless metadata lines,
followed by key_sections with its items and the sanitizer trailer, folds to a
mapping whose key_sections entry holds exactly the serialized sections. -/
theorem parse_build_core (e : List Str)
    (he : ∀ l ∈ e, nodashLine l ∧ pyStrip l ≠ ("---").data)
    (sections : List Str) (hgood : ∀ s ∈ sections, goodSection s)
    (gval dval : Str) (sws : List Str) :
    (Sanitize.parse_front_matter
        (("---").data :: (e ++
          (("key_sections:").data ::
            (sections.map (fun s => ("  - ").data ++ s) ++
              (("sanitizer:").data ::
                ((("  generated_at: ").data ++ gval) ::
                  ((("  toc_depth: ").data ++ dval) ::
                    (("  stopwords:").data ::
                      ((sws.map (fun w => ("    - ").data ++ w)) ++
                        [("---").data])))))))))).map
      (fun p => dGet p.1 (("key_sections").data)) =
      Except.ok (some (Sanitize.SVal.list sections)) := by
  have hgen := gen_line_props gval
  have hdep := dep_line_props dval
  have hclean : ∀ l ∈ (e ++
      (("key_sections:").data ::
        (sections.map (fun s => ("  - ").data ++ s) ++
          (("sanitizer:").data ::
            ((("  generated_at: ").data ++ gval) ::
              ((("  toc_depth: ").data ++ dval) ::
                (("  stopwords:").data ::
                  (sws.map (fun w => ("    - ").data ++ w))))))))),
      pyStrip l ≠ ("---").data := by
    intro l hl
    rcases List.mem_append.mp hl with h | h
    · exact (he l h).2
    rcases List.mem_cons.mp h with h | h
    · subst h; decide
    rcases List.mem_append.mp h with h | h
    · obtain ⟨s, hs, rfl⟩ := List.mem_map.mp h
      rw [strip_item_line (hgood s hs)]
      exact dash_space_ne_delim s
    rcases List.mem_cons.mp h with h | h
    · subst h; decide
    rcases List.mem_cons.mp h with h | h
    · subst h; exact hgen.2
    rcases List.mem_cons.mp h with h | h
    · subst h; exact hdep.2
    rcases List.mem_cons.mp h with h | h
    · subst h; decide
    obtain ⟨w, hw, rfl⟩ := List.mem_map.mp h
    rcases strip_stop_line w with ⟨h1, h2⟩ | ⟨h1, h2⟩
    · rw [h2]; decide
    · rw [h2]; exact dash_space_ne_delim _
  have hre : (e ++
      (("key_sections:").data ::
        (sections.map (fun s => ("  - ").data ++ s) ++
          (("sanitizer:").data ::
            ((("  generated_at: ").data ++ gval) ::
              ((("  toc_depth: ").data ++ dval) ::
                (("  stopwords:").data ::
                  ((sws.map (fun w => ("    - ").data ++ w)) ++
                    [("---").data])))))))) =
      (e ++
        (("key_sections:").data ::
          (sections.map (fun s => ("  - ").data ++ s) ++
            (("sanitizer:").data ::
              ((("  generated_at: ").data ++ gval) ::
                ((("  toc_depth: ").data ++ dval) ::
                  (("  stopwords:").data ::
                    (sws.map (fun w => ("    - ").data ++ w))))))))) ++
        ("---").data :: [] := by
    simp only [List.append_assoc, List.cons_append]
  have hsplit2 : Sanitize.fmSplit (e ++
      (("key_sections:").data ::
        (sections.map (fun s => ("  - ").data ++ s) ++
          (("sanitizer:").data ::
            ((("  generated_at: ").data ++ gval) ::
              ((("  toc_depth: ").data ++ dval) ::
                (("  stopwords:").data ::
                  ((sws.map (fun w => ("    - ").data ++ w)) ++
                    [("---").data])))))))) =
      ((e ++
        (("key_sections:").data ::
          (sections.map (fun s => ("  - ").data ++ s) ++
            (("sanitizer:").data ::
              ((("  generated_at: ").data ++ gval) ::
                ((("  toc_depth: ").data ++ dval) ::
                  (("  stopwords:").data ::
                    (sws.map (fun w => ("    - ").data ++ w))))))))), []) := by
    rw [hre]
    exact fmSplit_of_clean _ [] hclean
  obtain ⟨d1, k1, h1⟩ := foldFM_harmless_block e (fun l hl => (he l hl).1) [] none
    (("key_sections:").data ::
      (sections.map (fun s => ("  - ").data ++ s) ++
        (("sanitizer:").data ::
          ((("  generated_at: ").data ++ gval) ::
            ((("  toc_depth: ").data ++ dval) ::
              (("  stopwords:").data ::
                (sws.map (fun w => ("    - ").data ++ w))))))))
  have h2 := foldFM_cons_colon
    (show ("key_sections:").data = ("key_sections").data ++ (':') :: [] from rfl)
    (by decide) ⟨rfl, rfl⟩ d1 k1
    (sections.map (fun s => ("  - ").data ++ s) ++
      (("sanitizer:").data ::
        ((("  generated_at: ").data ++ gval) ::
          ((("  toc_depth: ").data ++ dval) ::
            (("  stopwords:").data ::
              (sws.map (fun w => ("    - ").data ++ w)))))))
  rw [show pyStrip (("key_sections").data) = ("key_sections").data from rfl,
      if_pos (show pyStrip ([] : Str) = [] from rfl)] at h2
  have h3 := foldFM_items sections hgood
    (dSet d1 (("key_sections").data) (Sanitize.SVal.list []))
    (("key_sections").data) []
    (("sanitizer:").data ::
      ((("  generated_at: ").data ++ gval) ::
        ((("  toc_depth: ").data ++ dval) ::
          (("  stopwords:").data ::
            (sws.map (fun w => ("    - ").data ++ w))))))
    (by decide) (dGet_dSet_self _ _ _)
  rw [List.nil_append, dSet_dSet] at h3
  obtain ⟨d2, htail, hpres⟩ := fold_tail gval dval sws
    (dSet d1 (("key_sections").data) (Sanitize.SVal.list sections))
    (("key_sections").data)
  have hfold : Sanitize.foldFM [] none (e ++
      (("key_sections:").data ::
        (sections.map (fun s => ("  - ").data ++ s) ++
          (("sanitizer:").data ::
            ((("  generated_at: ").data ++ gval) ::
              ((("  toc_depth: ").data ++ dval) ::
                (("  stopwords:").data ::
                  (sws.map (fun w => ("    - ").data ++ w))))))))) =
      Except.ok (d2, some (("stopwords").data)) := by
    rw [h1, h2, h3, htail]
  have hparse := parse_fm_of_fold _ _ _ d2 (some (("stopwords").data)) hsplit2 hfold
  rw [hparse]
  show Except.ok (dGet d2 (("key_sections").data)) =
    Except.ok (some (Sanitize.SVal.list sections))
  rw [hpres, dGet_dSet_self]

end DocSet

namespace DocSet

/-- C3 (amended): for a header whose key_sections list has at most 20 entries,
each non-empty and without trailing whitespace, serializing with
build_front_matter and reparsing with parse_front_matter reproduces
key_sections as the original ordered list, whatever the other metadata, the
toc depth, the stopwords and the timestamp are; the original claim fails for
longer lists because build_front_matter truncates to the first 20 entries. -/
theorem C3_key_sections_round_trip_amended :
    ∀ (m : Dict Sanitize.SVal) (sections : List Str) (depth : Int)
      (stopwords : List Str) (now : Str),
      sections.length ≤ 20 →
      (∀ s ∈ sections, goodSection s) →
      (Sanitize.parse_front_matter
          (Sanitize.build_front_matter m sections depth stopwords now)).map
        (fun p => dGet p.1 (("key_sections").data)) =
        Except.ok (some (Sanitize.SVal.list sections)) := by
  intro m sections depth stopwords now hlen hgood
  have hb : Sanitize.build_front_matter m sections depth stopwords now =
      ("---").data ::
        ((Sanitize.emit (("title").data) (dGet m (("title").data)) ++
          (Sanitize.emit (("docset_version").data) (dGet m (("docset_version").data)) ++
            (Sanitize.emit (("exported_at").data) (dGet m (("exported_at").data)) ++
              (Sanitize.emit (("doc_count").data) (dGet m (("doc_count").data)) ++
                (Sanitize.emit (("file_size").data) (dGet m (("file_size").data)) ++
                  (if joinSep ((", ").data) (sections.take 6) ≠ [] then
                      Sanitize.emit (("summary").data)
                        (some (Sanitize.SVal.str (joinSep ((", ").data) (sections.take 6))))
                    else [])))))) ++
          (("key_sections:").data ::
            (sections.map (fun s => ("  - ").data ++ s) ++
              (("sanitizer:").data ::
                ((("  generated_at: ").data ++ now) ::
                  ((("  toc_depth: ").data ++ (toString depth).data) ::
                    (("  stopwords:").data ::
                      (((Sanitize.sortStr stopwords).map (fun w => ("    - ").data ++ w)) ++
                        [("---").data])))))))) := by
    simp only [Sanitize.build_front_matter, List.take_of_length_le hlen,
      List.append_assoc, List.singleton_append, List.cons_append, List.nil_append]
  have hE : ∀ l ∈ (Sanitize.emit (("title").data) (dGet m (("title").data)) ++
      (Sanitize.emit (("docset_version").data) (dGet m (("docset_version").data)) ++
        (Sanitize.emit (("exported_at").data) (dGet m (("exported_at").data)) ++
          (Sanitize.emit (("doc_count").data) (dGet m (("doc_count").data)) ++
            (Sanitize.emit (("file_size").data) (dGet m (("file_size").data)) ++
              (if joinSep ((", ").data) (sections.take 6) ≠ [] then
                  Sanitize.emit (("summary").data)
                    (some (Sanitize.SVal.str (joinSep ((", ").data) (sections.take 6))))
                else [])))))),
      nodashLine l ∧ pyStrip l ≠ ("---").data := by
    intro l hl
    rcases List.mem_append.mp hl with h | h
    · exact emit_line_good (by decide) (by decide) l h
    rcases List.mem_append.mp h with h | h
    · exact emit_line_good (by decide) (by decide) l h
    rcases List.mem_append.mp h with h | h
    · exact emit_line_good (by decide) (by decide) l h
    rcases List.mem_append.mp h with h | h
    · exact emit_line_good (by decide) (by decide) l h
    rcases List.mem_append.mp h with h | h
    · exact emit_line_good (by decide) (by decide) l h
    by_cases hc : joinSep ((", ").data) (sections.take 6) ≠ []
    · rw [if_pos hc] at h
      exact emit_line_good (by decide) (by decide) l h
    · rw [if_neg hc] at h
      simp at h
  rw [hb]
  exact parse_build_core _ hE sections hgood now ((toString depth).data)
    (Sanitize.sortStr stopwords)

/-- Witness for C3 (amended) at a concrete two-section header. -/
theorem C3_key_sections_round_trip_witness :
    ([("alpha").data, ("beta").data]).length ≤ 20 ∧
      goodSection (("alpha").data) ∧ goodSection (("beta").data) ∧
      (Sanitize.parse_front_matter
          (Sanitize.build_front_matter [] [("alpha").data, ("beta").data] 2
            [("x").data] (("2024").data))).map
        (fun p => dGet p.1 (("key_sections").data)) =
        Except.ok (some (Sanitize.SVal.list [("alpha").data, ("beta").data])) :=
  ⟨by decide, by decide, by decide,
    C3_key_sections_round_trip_amended [] [("alpha").data, ("beta").data] 2
      [("x").data] (("2024").data) (by decide) (by decide)⟩

end DocSet
